import Mathlib

set_option maxRecDepth 8000

/-!
# Verification of the readable-UUID codec (`src/lib.rs`)

Shallow embedding of the sentence codec: a 128-bit token (16 bytes) is sliced
into fixed-width unsigned segments, each segment is rendered as a word from a
category table or as a decimal numeral, and the NORMAL profile supports the
inverse transform back to the original bytes.

Modelling conventions:
* Rust byte buffers are `List Nat` (each element a byte value `< 256`);
* a bit is a `Nat` that is `0` or `1`;
* Rust `u16` arithmetic carries an explicit `% 65536`, and the `as u16` /
  `as u8` casts are explicit `% 65536` / `% 256`;
* Rust strings are `List Char`; `str::split(' ')` and the space-joining
  `format!` template are modelled by `splitSp` / `joinSp`;
* fallible operations return `Option`/`Except`; a Rust panic that the type
  system cannot rule out (out-of-range index, too few bits to repack) is the
  explicit `DecodeResult.crash` value.
-/

namespace UuidReadable

/-- Widths of the long profile, `const NORMAL: [u8; 12]` in lib.rs. -/
def NORMAL : List Nat := [12, 11, 14, 13, 13, 10, 12, 11, 14, 5, 6, 7]

/-- Widths of the short profile, `const SHORT: [u8; 5]` in lib.rs. -/
def SHORT : List Nat := [6, 6, 7, 8, 5]

/-- Loop body of `u16_to_bits` in lib.rs: push `b % 2`, shift right, `length`
times; yields the low bits least-significant first. -/
def u16_to_bits_go : Nat → Nat → List Nat
  | _, 0 => []
  | b, l + 1 => b % 2 :: u16_to_bits_go (b / 2) l

/-- `u16_to_bits(b, length)` from lib.rs: the low `length` bits of `b`,
most-significant first (the Rust code pushes LSB-first and then reverses). -/
def u16_to_bits (b length : Nat) : List Nat :=
  (u16_to_bits_go b length).reverse

/-- `to_bits(bytes)` from lib.rs: every byte expanded to its 8 bits, MSB
first, concatenated in byte order. -/
def to_bits (bytes : List Nat) : List Nat :=
  (bytes.map (fun b => u16_to_bits b 8)).flatten

/-- `to_byte(bits)` from lib.rs: big-endian fold `_byte = 2*_byte + b` in
`u16` arithmetic (hence the `% 65536`). -/
def to_byte (bits : List Nat) : Nat :=
  bits.foldl (fun acc b => (2 * acc + b) % 65536) 0

/-- The `drain` loop of `partition` in lib.rs: each width takes that many
bits from the front of the remaining bit sequence. -/
def partitionGo : List Nat → List Nat → List Nat
  | [], _ => []
  | p :: ps, bits => to_byte (bits.take p) :: partitionGo ps (bits.drop p)

/-- `partition(parts, bytes)` from lib.rs.  The Rust function fills a
`[usize; 12]`; entries beyond `parts.len()` stay `0` and are never read, so
the model returns just the `parts.len()` computed values. -/
def partition (parts bytes : List Nat) : List Nat :=
  partitionGo parts (to_bits bytes)

/-- `de_partition(bits)` from lib.rs: repack the first 128 bits into 16
bytes, 8 bits per byte MSB-first (`as u8` is the `% 256`).  The Rust slice
`bits[8*i..8*(i+1)]` panics when fewer than 128 bits are supplied; the model
returns `none` there. -/
def de_partition (bits : List Nat) : Option (List Nat) :=
  if 128 ≤ bits.length then
    some ((List.range 16).map (fun i => to_byte ((bits.drop (8 * i)).take 8) % 256))
  else none

/-- `to_bits_parted(bytes)` from lib.rs: value `i` is expanded to exactly
`NORMAL[i]` bits.  The Rust loop reads `NORMAL[i]` by index; it is only ever
called with exactly 12 values, which the `zip` reflects. -/
def to_bits_parted (vals : List Nat) : List Nat :=
  ((vals.zip NORMAL).map (fun p => u16_to_bits p.1 p.2)).flatten

/-- Modelled from the spec: the word tables under `src/data/` (NAMES,
PERSONAL_NOUNS, PLACES, VERBS, ADJECTIVES, ANIMALS) are static fixture data
not present in src/.  The spec requires each category to be an ordered,
duplicate-free list of words without internal whitespace, of size at least
`2^w` for every slot width `w` bound to it.  We realise the category words as
runs of the letter a, the word at index `i` having `i + 1` letters, which
satisfies all of those preconditions. -/
def wordsFrom : Nat → Nat → List (List Char)
  | _, 0 => []
  | s, n + 1 => List.replicate (s + 1) 'a' :: wordsFrom (s + 1) n

/-- Modelled from the spec: NAMES, bound to widths up to 14, so 2^14 words. -/
def NAMES : List (List Char) := wordsFrom 0 16384

/-- Modelled from the spec: PERSONAL_NOUNS, bound to width 13. -/
def PERSONAL_NOUNS : List (List Char) := wordsFrom 0 8192

/-- Modelled from the spec: PLACES, bound to width 13. -/
def PLACES : List (List Char) := wordsFrom 0 8192

/-- Modelled from the spec: VERBS, bound to width 10. -/
def VERBS : List (List Char) := wordsFrom 0 1024

/-- Modelled from the spec: ADJECTIVES, bound to widths up to 8. -/
def ADJECTIVES : List (List Char) := wordsFrom 0 256

/-- Modelled from the spec: ANIMALS, bound to widths up to 7. -/
def ANIMALS : List (List Char) := wordsFrom 0 128

/-- Join tokens with single spaces: the `format!` templates of `_generate`
and `_short` in lib.rs place exactly one space between consecutive tokens. -/
def joinSp : List (List Char) → List Char
  | [] => []
  | [t] => t
  | t :: ts => t ++ ' ' :: joinSp ts

/-- Rust `str::split(' ')` from `generate_inverse` in lib.rs: split on every
single space character, keeping empty pieces (so the result is always
nonempty and has one more piece than there are spaces). -/
def splitSp : List Char → List (List Char)
  | [] => [[]]
  | c :: rest =>
    let r := splitSp rest
    if c = ' ' then [] :: r else (c :: r.headI) :: r.tail

/-- Decimal value of a digit string, the accumulation performed by Rust
`u16::from_str`. -/
def digitsVal (cs : List Char) : Nat :=
  cs.foldl (fun acc c => 10 * acc + (c.toNat - 48)) 0

/-- Rust `str::parse::<u16>()` from lib.rs line 272: an optional leading
`+`, then at least one ASCII digit, value required to fit in `u16`;
anything else is a parse error. -/
def parseU16 (cs : List Char) : Option Nat :=
  let body := match cs with
    | c :: t => if c = '+' then t else c :: t
    | [] => []
  if body.isEmpty then none
  else if body.all (fun c => c.isDigit) then
    if digitsVal body < 65536 then some (digitsVal body) else none
  else none

/-- Indexing `TABLE[i]` as Rust does in `_generate` / `_short`; the indices
produced by `partition` are always in range, so the default is never hit. -/
def wordAt (tbl : List (List Char)) (i : Nat) : List Char :=
  tbl.getD i []

/-- Literal connective token `the` of the NORMAL template. -/
def theTok : List Char := ['t', 'h', 'e']

/-- Literal connective token `of` of the NORMAL template. -/
def ofTok : List Char := ['o', 'f']

/-- Literal connective token `and` of the NORMAL template. -/
def andTok : List Char := ['a', 'n', 'd']

/-- The 15 tokens of `_generate`'s format template
`{} {} {} the {} of {} {} {} {} {} and {} {} {}` in lib.rs, with the slot
arguments resolved exactly as there. -/
def genTokens (bytes : List Nat) : List (List Char) :=
  [wordAt NAMES ((partition NORMAL bytes).getD 0 0),
   wordAt NAMES ((partition NORMAL bytes).getD 1 0),
   wordAt NAMES ((partition NORMAL bytes).getD 2 0), theTok,
   wordAt PERSONAL_NOUNS ((partition NORMAL bytes).getD 3 0), ofTok,
   wordAt PLACES ((partition NORMAL bytes).getD 4 0),
   wordAt VERBS ((partition NORMAL bytes).getD 5 0),
   wordAt NAMES ((partition NORMAL bytes).getD 6 0),
   wordAt NAMES ((partition NORMAL bytes).getD 7 0),
   wordAt NAMES ((partition NORMAL bytes).getD 8 0), andTok,
   Nat.toDigits 10 ((partition NORMAL bytes).getD 9 0),
   wordAt ADJECTIVES ((partition NORMAL bytes).getD 10 0),
   wordAt ANIMALS ((partition NORMAL bytes).getD 11 0)]

/-- `_generate(uuid)` from lib.rs: the NORMAL-profile sentence. -/
def generateSentence (bytes : List Nat) : List Char :=
  joinSp (genTokens bytes)

/-- `generate_from(uuid)` from lib.rs (the `Uuid` is just its 16 bytes). -/
def generate_from (bytes : List Nat) : List Char :=
  generateSentence bytes

/-- The 5 tokens of `_short`'s format template `{} {} {} {} {}` in lib.rs. -/
def shortTokens (bytes : List Nat) : List (List Char) :=
  [wordAt NAMES ((partition SHORT bytes).getD 0 0),
   wordAt VERBS ((partition SHORT bytes).getD 1 0),
   Nat.toDigits 10 ((partition SHORT bytes).getD 2 0),
   wordAt ADJECTIVES ((partition SHORT bytes).getD 3 0),
   wordAt ANIMALS ((partition SHORT bytes).getD 4 0)]

/-- `_short(uuid)` from lib.rs: the SHORT-profile sentence. -/
def shortSentence (bytes : List Nat) : List Char :=
  joinSp (shortTokens bytes)

/-- `short_from(uuid)` from lib.rs. -/
def short_from (bytes : List Nat) : List Char :=
  shortSentence bytes

/-- The six word categories of lib.rs. -/
inductive Category where
  | names
  | personalNouns
  | places
  | verbs
  | adjectives
  | animals
deriving DecidableEq

/-- The table a category names. -/
def tableOf : Category → List (List Char)
  | .names => NAMES
  | .personalNouns => PERSONAL_NOUNS
  | .places => PLACES
  | .verbs => VERBS
  | .adjectives => ADJECTIVES
  | .animals => ANIMALS

/-- Decode errors of `generate_inverse` in lib.rs.  `badLength` is the
"sentence does not correspond" error of the token-count guard; `notFound cat
j` is the anyhow context string such as `NAMES (0) not found` (the category
plus the splitted index determine that message and vice versa); `badNumber`
is the propagated `ParseIntError` of `splitted[12].parse::<u16>()`. -/
inductive DecodeErr where
  | badLength
  | notFound (cat : Category) (idx : Nat)
  | badNumber
deriving DecidableEq

/-- Outcome of `generate_inverse`: a 16-byte token, an error, or a Rust
panic (`crash`), which the code never actually reaches. -/
inductive DecodeResult where
  | ok (bytes : List Nat)
  | err (e : DecodeErr)
  | crash
deriving DecidableEq

/-- Rust `Iterator::position` as used in `generate_inverse`: index of the
first element satisfying the predicate. -/
def position (p : List Char → Bool) : List (List Char) → Option Nat
  | [] => none
  | w :: ws => if p w then some 0 else (position p ws).map (· + 1)

/-- One table lookup of `generate_inverse`:
`TABLE.iter().position(|&r| r == splitted[idx]).context(...)? as u16`. -/
def lookup (cat : Category) (idx : Nat) (tok : List Char) : Except DecodeErr Nat :=
  match position (fun w => w = tok) (tableOf cat) with
  | some i => .ok (i % 65536)
  | none => .error (.notFound cat idx)

/-- The numeric slot of `generate_inverse`: `splitted[12].parse::<u16>()?`. -/
def parseNumTok (tok : List Char) : Except DecodeErr Nat :=
  match parseU16 tok with
  | some v => .ok v
  | none => .error .badNumber

/-- The `index_values` array construction of `generate_inverse` in lib.rs:
twelve fallible slot resolutions, evaluated left to right, the first failure
propagating (each `?`). -/
def decodeSlots (t0 t1 t2 t4 t6 t7 t8 t9 t10 t12 t13 t14 : List Char) :
    Except DecodeErr (List Nat) :=
  match lookup .names 0 t0 with
  | .error e => .error e
  | .ok v0 =>
  match lookup .names 1 t1 with
  | .error e => .error e
  | .ok v1 =>
  match lookup .names 2 t2 with
  | .error e => .error e
  | .ok v2 =>
  match lookup .personalNouns 4 t4 with
  | .error e => .error e
  | .ok v3 =>
  match lookup .places 6 t6 with
  | .error e => .error e
  | .ok v4 =>
  match lookup .verbs 7 t7 with
  | .error e => .error e
  | .ok v5 =>
  match lookup .names 8 t8 with
  | .error e => .error e
  | .ok v6 =>
  match lookup .names 9 t9 with
  | .error e => .error e
  | .ok v7 =>
  match lookup .names 10 t10 with
  | .error e => .error e
  | .ok v8 =>
  match parseNumTok t12 with
  | .error e => .error e
  | .ok v9 =>
  match lookup .adjectives 13 t13 with
  | .error e => .error e
  | .ok v10 =>
  match lookup .animals 14 t14 with
  | .error e => .error e
  | .ok v11 => .ok [v0, v1, v2, v3, v4, v5, v6, v7, v8, v9, v10, v11]

/-- `generate_inverse(sentence)` from lib.rs: split on spaces, guard the
token count, resolve the twelve slots, re-emit the bits and repack them into
the 16 token bytes (`Uuid::from_slice` on a 16-byte slice always succeeds,
so it adds nothing).  The unchecked `splitted[i]` indexings and the
`de_partition` slice accesses are modelled as `crash` when out of range. -/
def generate_inverse (s : List Char) : DecodeResult :=
  let sp := splitSp s
  if sp.length < 15 then .err .badLength
  else
    match sp[0]?, sp[1]?, sp[2]?, sp[4]?, sp[6]?, sp[7]?, sp[8]?, sp[9]?,
        sp[10]?, sp[12]?, sp[13]?, sp[14]? with
    | some t0, some t1, some t2, some t4, some t6, some t7, some t8, some t9,
        some t10, some t12, some t13, some t14 =>
      match decodeSlots t0 t1 t2 t4 t6 t7 t8 t9 t10 t12 t13 t14 with
      | .error e => .err e
      | .ok vals =>
        match de_partition (to_bits_parted vals) with
        | none => .crash
        | some bytes => .ok bytes
    | _, _, _, _, _, _, _, _, _, _, _, _ => .crash

/-- The category bound to each word slot position of the NORMAL template
(positions 3, 5, 11 are connectives, position 12 is the numeral). -/
def slotCat (j : Nat) : Option Category :=
  if j = 0 ∨ j = 1 ∨ j = 2 ∨ j = 8 ∨ j = 9 ∨ j = 10 then some .names
  else if j = 4 then some .personalNouns
  else if j = 6 then some .places
  else if j = 7 then some .verbs
  else if j = 13 then some .adjectives
  else if j = 14 then some .animals
  else none

/-- The slot positions in the order `generate_inverse` resolves them. -/
def slotOrder : List Nat := [0, 1, 2, 4, 6, 7, 8, 9, 10, 12, 13, 14]

/-- The slot positions resolved strictly before position `j`. -/
def earlierSlots (j : Nat) : List Nat :=
  slotOrder.takeWhile (fun i => i ≠ j)

/-- Whether the token at slot position `j` resolves: table membership for a
word slot, parseability for the numeral slot. -/
def checkOk (sp : List (List Char)) (j : Nat) : Bool :=
  match slotCat j with
  | some cat => decide ((sp.getD j []) ∈ tableOf cat)
  | none => (parseU16 (sp.getD j [])).isSome

/-! ## Bit-level lemmas -/

/-- Pure big-endian bit value, the fold of `to_byte` without the `u16` wrap. -/
def bitsVal (bits : List Nat) : Nat :=
  bits.foldl (fun acc b => 2 * acc + b) 0

theorem bitsVal_foldl (bits : List Nat) (acc : Nat) :
    bits.foldl (fun a b => 2 * a + b) acc = acc * 2 ^ bits.length + bitsVal bits := by
  induction bits generalizing acc with
  | nil => simp [bitsVal]
  | cons x xs ih =>
    simp only [List.foldl_cons, List.length_cons]
    rw [ih (2 * acc + x)]
    have hb : bitsVal (x :: xs) = x * 2 ^ xs.length + bitsVal xs := by
      simp only [bitsVal, List.foldl_cons]
      simpa using ih (2 * 0 + x)
    rw [hb]
    ring

theorem bitsVal_cons (x : Nat) (xs : List Nat) :
    bitsVal (x :: xs) = x * 2 ^ xs.length + bitsVal xs := by
  simp only [bitsVal, List.foldl_cons]
  simpa using bitsVal_foldl xs (2 * 0 + x)

theorem bitsVal_append (xs ys : List Nat) :
    bitsVal (xs ++ ys) = bitsVal xs * 2 ^ ys.length + bitsVal ys := by
  simp only [bitsVal, List.foldl_append]
  simpa using bitsVal_foldl ys (bitsVal xs)

theorem bitsVal_lt (bits : List Nat) (h : ∀ x ∈ bits, x ≤ 1) :
    bitsVal bits < 2 ^ bits.length := by
  induction bits with
  | nil => simp [bitsVal]
  | cons x xs ih =>
    have hx : x ≤ 1 := h x (by simp)
    have hxs := ih (fun y hy => h y (by simp [hy]))
    rw [bitsVal_cons]
    have : 2 ^ (x :: xs).length = 2 ^ xs.length + 2 ^ xs.length := by
      simp [List.length_cons, Nat.pow_succ]; ring
    rw [this]
    have : x * 2 ^ xs.length ≤ 2 ^ xs.length := by
      calc x * 2 ^ xs.length ≤ 1 * 2 ^ xs.length := by
            exact Nat.mul_le_mul_right _ hx
        _ = 2 ^ xs.length := by ring
    omega

theorem to_byte_foldl_eq (bs : List Nat) :
    ∀ acc k : Nat, (∀ x ∈ bs, x ≤ 1) → acc < 2 ^ k → bs.length + k ≤ 16 →
      bs.foldl (fun a b => (2 * a + b) % 65536) acc =
        bs.foldl (fun a b => 2 * a + b) acc := by
  induction bs with
  | nil => intro acc k _ _ _; rfl
  | cons x xs ih =>
    intro acc k h1 hacc hlen
    simp only [List.foldl_cons]
    have hx : x ≤ 1 := h1 x (by simp)
    have hk : k + 1 ≤ 16 := by simp only [List.length_cons] at hlen; omega
    have hlt : 2 * acc + x < 2 ^ (k + 1) := by
      rw [Nat.pow_succ]; omega
    have hmod : (2 * acc + x) % 65536 = 2 * acc + x := by
      apply Nat.mod_eq_of_lt
      calc 2 * acc + x < 2 ^ (k + 1) := hlt
        _ ≤ 2 ^ 16 := Nat.pow_le_pow_right (by omega) hk
        _ = 65536 := by norm_num
    rw [hmod]
    apply ih (2 * acc + x) (k + 1) (fun y hy => h1 y (by simp [hy])) hlt
    simp only [List.length_cons] at hlen
    omega

theorem to_byte_eq_bitsVal (bits : List Nat) (h1 : ∀ x ∈ bits, x ≤ 1)
    (hlen : bits.length ≤ 16) : to_byte bits = bitsVal bits := by
  have := to_byte_foldl_eq bits 0 0 h1 (by norm_num) (by omega)
  simpa [to_byte, bitsVal] using this

theorem to_byte_lt (bits : List Nat) (h1 : ∀ x ∈ bits, x ≤ 1)
    (hlen : bits.length ≤ 16) : to_byte bits < 2 ^ bits.length := by
  rw [to_byte_eq_bitsVal bits h1 hlen]
  exact bitsVal_lt bits h1

theorem u16_to_bits_go_length (b l : Nat) : (u16_to_bits_go b l).length = l := by
  induction l generalizing b with
  | zero => rfl
  | succ n ih => simp [u16_to_bits_go, ih]

theorem u16_to_bits_length (b l : Nat) : (u16_to_bits b l).length = l := by
  simp [u16_to_bits, u16_to_bits_go_length]

theorem u16_to_bits_le_one (b l : Nat) : ∀ x ∈ u16_to_bits b l, x ≤ 1 := by
  suffices h : ∀ l b, ∀ x ∈ u16_to_bits_go b l, x ≤ 1 by
    intro x hx
    exact h l b x (by simpa [u16_to_bits] using hx)
  intro l
  induction l with
  | zero => intro b x hx; simp [u16_to_bits_go] at hx
  | succ n ih =>
    intro b x hx
    simp only [u16_to_bits_go, List.mem_cons] at hx
    rcases hx with h | h
    · omega
    · exact ih (b / 2) x h

theorem u16_to_bits_succ (b l : Nat) :
    u16_to_bits b (l + 1) = u16_to_bits (b / 2) l ++ [b % 2] := by
  simp [u16_to_bits, u16_to_bits_go]

theorem bitsVal_u16_to_bits (b l : Nat) :
    bitsVal (u16_to_bits b l) = b % 2 ^ l := by
  induction l generalizing b with
  | zero => simp [u16_to_bits, u16_to_bits_go, bitsVal, Nat.mod_one]
  | succ n ih =>
    rw [u16_to_bits_succ, bitsVal_append, ih]
    simp only [List.length_singleton]
    have hb : bitsVal [b % 2] = b % 2 := by simp [bitsVal]
    rw [hb]
    have h1 : b / 2 % 2 ^ n = b % 2 ^ (n + 1) / 2 := by
      have hmm := Nat.mod_mul_right_div_self b 2 (2 ^ n)
      rw [show (2 : Nat) * 2 ^ n = 2 ^ (n + 1) by rw [Nat.pow_succ]; ring] at hmm
      omega
    have h2 : b % 2 = b % 2 ^ (n + 1) % 2 := by
      rw [Nat.mod_mod_of_dvd]
      exact Dvd.intro_left (2 ^ n) (by rw [Nat.pow_succ])
    rw [h1, h2]
    have := Nat.div_add_mod (b % 2 ^ (n + 1)) 2
    omega

theorem u16_to_bits_bitsVal (bits : List Nat) (h1 : ∀ x ∈ bits, x ≤ 1) :
    u16_to_bits (bitsVal bits) bits.length = bits := by
  induction bits using List.reverseRecOn with
  | nil => simp [u16_to_bits, u16_to_bits_go, bitsVal]
  | append_singleton xs x ih =>
    have hx : x ≤ 1 := h1 x (by simp)
    have hxs : ∀ y ∈ xs, y ≤ 1 := fun y hy => h1 y (by simp [hy])
    rw [bitsVal_append, List.length_append, List.length_singleton,
      u16_to_bits_succ]
    have hv : bitsVal [x] = x := by simp [bitsVal]
    rw [hv]
    have hdiv : (bitsVal xs * 2 ^ 1 + x) / 2 = bitsVal xs := by
      simp [Nat.pow_one]; omega
    have hmod : (bitsVal xs * 2 ^ 1 + x) % 2 = x := by
      simp [Nat.pow_one]; omega
    rw [hdiv, hmod, ih hxs]

theorem u16_to_bits_to_byte (bits : List Nat) (h1 : ∀ x ∈ bits, x ≤ 1)
    (hlen : bits.length ≤ 16) :
    u16_to_bits (to_byte bits) bits.length = bits := by
  rw [to_byte_eq_bitsVal bits h1 hlen]
  exact u16_to_bits_bitsVal bits h1

/-! ## `to_bits`, `de_partition` and `partition` lemmas -/

theorem to_bits_nil : to_bits [] = [] := rfl

theorem to_bits_cons (b : Nat) (bs : List Nat) :
    to_bits (b :: bs) = u16_to_bits b 8 ++ to_bits bs := by
  simp [to_bits]

theorem to_bits_length (bytes : List Nat) :
    (to_bits bytes).length = 8 * bytes.length := by
  induction bytes with
  | nil => rfl
  | cons b bs ih =>
    rw [to_bits_cons, List.length_append, u16_to_bits_length, ih,
      List.length_cons]
    ring

theorem to_bits_le_one (bytes : List Nat) : ∀ x ∈ to_bits bytes, x ≤ 1 := by
  induction bytes with
  | nil => intro x hx; simp [to_bits_nil] at hx
  | cons b bs ih =>
    intro x hx
    rw [to_bits_cons, List.mem_append] at hx
    rcases hx with h | h
    · exact u16_to_bits_le_one b 8 x h
    · exact ih x h

theorem to_bits_append (xs ys : List Nat) :
    to_bits (xs ++ ys) = to_bits xs ++ to_bits ys := by
  simp [to_bits]

/-- The byte-extraction loop of `de_partition` run on `to_bits bytes`
recovers the bytes one by one. -/
theorem de_partition_map_to_bits (n : Nat) (bytes : List Nat)
    (hlen : bytes.length = n) (hb : ∀ b ∈ bytes, b < 256) :
    (List.range n).map
        (fun i => to_byte (((to_bits bytes).drop (8 * i)).take 8) % 256) =
      bytes := by
  induction bytes generalizing n with
  | nil => subst hlen; rfl
  | cons b bs ih =>
    subst hlen
    rw [List.length_cons, List.range_succ_eq_map, List.map_cons, List.map_map]
    have hchunkLen : (u16_to_bits b 8).length = 8 := u16_to_bits_length b 8
    have hhead : to_byte (((to_bits (b :: bs)).drop (8 * 0)).take 8) % 256 = b := by
      rw [to_bits_cons]
      have : ((u16_to_bits b 8 ++ to_bits bs).drop 0).take 8 = u16_to_bits b 8 := by
        rw [List.drop_zero, List.take_append_of_le_length (by rw [hchunkLen])]
        exact List.take_of_length_le (by rw [hchunkLen])
      rw [Nat.mul_zero, this]
      rw [to_byte_eq_bitsVal _ (u16_to_bits_le_one b 8) (by rw [hchunkLen]; omega)]
      rw [bitsVal_u16_to_bits]
      have hb' : b < 256 := hb b (by simp)
      have h28 : b % 2 ^ 8 = b :=
        Nat.mod_eq_of_lt (lt_of_lt_of_le hb' (by norm_num))
      rw [h28]
      exact Nat.mod_eq_of_lt hb'
    have htail : ∀ i : Nat,
        to_byte (((to_bits (b :: bs)).drop (8 * (i + 1))).take 8) % 256 =
          to_byte (((to_bits bs).drop (8 * i)).take 8) % 256 := by
      intro i
      rw [to_bits_cons, List.drop_append_eq_append_drop]
      have h8 : 8 * (i + 1) - (u16_to_bits b 8).length = 8 * i := by
        rw [hchunkLen]; ring_nf; omega
      have hnil : (u16_to_bits b 8).drop (8 * (i + 1)) = [] := by
        apply List.drop_eq_nil_of_le
        rw [hchunkLen]; omega
      rw [hnil, h8, List.nil_append]
    rw [hhead]
    congr 1
    refine (List.map_congr_left ?_).trans
      (ih bs.length rfl (fun x hx => hb x (by simp [hx])))
    intro i _
    simpa [Function.comp, Nat.succ_eq_add_one] using htail i

/-- `de_partition` inverts `to_bits` on any 16-byte buffer (claim C7's core). -/
theorem de_partition_to_bits_eq (bytes : List Nat) (hlen : bytes.length = 16)
    (hb : ∀ b ∈ bytes, b < 256) :
    de_partition (to_bits bytes) = some bytes := by
  have hL : (to_bits bytes).length = 128 := by rw [to_bits_length, hlen]
  rw [de_partition, if_pos (by omega)]
  rw [de_partition_map_to_bits 16 bytes hlen hb]

theorem partitionGo_length (ps bits : List Nat) :
    (partitionGo ps bits).length = ps.length := by
  induction ps generalizing bits with
  | nil => rfl
  | cons p ps ih => simp [partitionGo, ih]

/-- Every value cut out by `partitionGo` is below `2 ^ w` for its width `w`. -/
theorem partitionGo_zip_lt (ps bits : List Nat) (hps : ∀ p ∈ ps, p ≤ 16)
    (hb : ∀ x ∈ bits, x ≤ 1) :
    ∀ vw ∈ (partitionGo ps bits).zip ps, vw.1 < 2 ^ vw.2 := by
  induction ps generalizing bits with
  | nil => intro vw hvw; simp [partitionGo] at hvw
  | cons p ps ih =>
    intro vw hvw
    simp only [partitionGo, List.zip_cons_cons, List.mem_cons] at hvw
    rcases hvw with h | h
    · subst h
      have hle : (bits.take p).length ≤ p := by
        simp [List.length_take]
      have hle16 : (bits.take p).length ≤ 16 :=
        le_trans hle (hps p (by simp))
      have h1 : ∀ x ∈ bits.take p, x ≤ 1 := fun x hx => hb x (List.mem_of_mem_take hx)
      calc to_byte (bits.take p) < 2 ^ (bits.take p).length :=
            to_byte_lt _ h1 hle16
        _ ≤ 2 ^ p := Nat.pow_le_pow_right (by omega) hle
    · exact ih (bits.drop p) (fun q hq => hps q (by simp [hq]))
        (fun x hx => hb x (List.mem_of_mem_drop hx)) vw h

/-- Re-emitting each partition value at its width and flattening recovers the
leading `ps.sum` bits (the Segment Assembler inverts the Partitioner). -/
theorem partitionGo_reassemble (ps bits : List Nat) (hps : ∀ p ∈ ps, p ≤ 16)
    (hb : ∀ x ∈ bits, x ≤ 1) (hsum : ps.sum ≤ bits.length) :
    (((partitionGo ps bits).zip ps).map (fun p => u16_to_bits p.1 p.2)).flatten =
      bits.take ps.sum := by
  induction ps generalizing bits with
  | nil => simp [partitionGo]
  | cons p ps ih =>
    simp only [partitionGo, List.zip_cons_cons, List.map_cons, List.flatten_cons,
      List.sum_cons]
    have hplen : (bits.take p).length = p := by
      rw [List.length_take]
      simp only [List.sum_cons] at hsum
      omega
    have h1 : ∀ x ∈ bits.take p, x ≤ 1 := fun x hx => hb x (List.mem_of_mem_take hx)
    have hchunk : u16_to_bits (to_byte (bits.take p)) p = bits.take p := by
      have := u16_to_bits_to_byte (bits.take p) h1
        (by rw [hplen]; exact hps p (by simp))
      rwa [hplen] at this
    rw [hchunk]
    have hrest : ps.sum ≤ (bits.drop p).length := by
      rw [List.length_drop]
      simp only [List.sum_cons] at hsum
      omega
    rw [ih (bits.drop p) (fun q hq => hps q (by simp [hq]))
      (fun x hx => hb x (List.mem_of_mem_drop hx)) hrest]
    rw [List.take_add]

theorem NORMAL_sum : NORMAL.sum = 128 := by decide

theorem NORMAL_le16 : ∀ p ∈ NORMAL, p ≤ 16 := by decide

theorem SHORT_sum : SHORT.sum = 32 := by decide

/-- Length of `to_bits_parted` on any 12 values: one run per width, so
exactly `NORMAL.sum = 128` bits. -/
theorem to_bits_parted_length (vals : List Nat) (h : vals.length = 12) :
    (to_bits_parted vals).length = 128 := by
  have key : ∀ (vs ws : List Nat), vs.length = ws.length →
      (((vs.zip ws).map (fun p => u16_to_bits p.1 p.2)).flatten).length = ws.sum := by
    intro vs
    induction vs with
    | nil =>
      intro ws hw
      have : ws = [] := by
        cases ws with
        | nil => rfl
        | cons w ws => simp at hw
      subst this; rfl
    | cons v vs ih =>
      intro ws hw
      cases ws with
      | nil => simp at hw
      | cons w ws =>
        simp only [List.zip_cons_cons, List.map_cons, List.flatten_cons,
          List.length_append, List.sum_cons, u16_to_bits_length]
        rw [ih ws (by simpa using hw)]
  rw [to_bits_parted, key vals NORMAL (by rw [h]; rfl), NORMAL_sum]

/-- `to_bits_parted` applied to the values `partition` cut from a 16-byte
buffer restores the full 128-bit sequence. -/
theorem to_bits_parted_partition (bytes : List Nat) (hlen : bytes.length = 16) :
    to_bits_parted (partition NORMAL bytes) = to_bits bytes := by
  have hb := to_bits_le_one bytes
  have hbl : (to_bits bytes).length = 128 := by rw [to_bits_length, hlen]
  have := partitionGo_reassemble NORMAL (to_bits bytes) NORMAL_le16 hb
    (by rw [NORMAL_sum, hbl])
  rw [NORMAL_sum] at this
  rw [to_bits_parted, partition, this, ← hbl, List.take_length]

/-! ## Word-table lemmas -/

theorem wordsFrom_length (n : Nat) : ∀ s, (wordsFrom s n).length = n := by
  induction n with
  | zero => intro s; rfl
  | succ m ih => intro s; simp [wordsFrom, ih]

theorem wordsFrom_mem (n : Nat) :
    ∀ s w, w ∈ wordsFrom s n → ∃ k, w = List.replicate (k + 1) 'a' := by
  induction n with
  | zero => intro s w hw; simp [wordsFrom] at hw
  | succ m ih =>
    intro s w hw
    simp only [wordsFrom, List.mem_cons] at hw
    rcases hw with h | h
    · exact ⟨s, h⟩
    · exact ih (s + 1) w h

theorem wordsFrom_getD (n : Nat) :
    ∀ s v, v < n → (wordsFrom s n).getD v [] = List.replicate (s + v + 1) 'a' := by
  induction n with
  | zero => intro s v hv; omega
  | succ m ih =>
    intro s v hv
    cases v with
    | zero => simp [wordsFrom]
    | succ u =>
      have := ih (s + 1) u (by omega)
      simpa [wordsFrom, Nat.add_assoc, Nat.add_comm 1 u] using this

theorem wordsFrom_position (n : Nat) :
    ∀ s v, v < n →
      position (fun w => w = List.replicate (s + v + 1) 'a') (wordsFrom s n) =
        some v := by
  induction n with
  | zero => intro s v hv; omega
  | succ m ih =>
    intro s v hv
    cases v with
    | zero =>
      simp [wordsFrom, position]
    | succ u =>
      have hne : List.replicate (s + 1) 'a' ≠ List.replicate (s + (u + 1) + 1) 'a' := by
        intro h
        have := congrArg List.length h
        simp [List.length_replicate] at this
      have hrec := ih (s + 1) u (by omega)
      have harg : (s + 1) + u + 1 = s + (u + 1) + 1 := by omega
      rw [harg] at hrec
      simp [wordsFrom, position, hne, hrec]

/-- No category word contains a space and none is empty (spec precondition on
the word tables). -/
theorem wordsFrom_word_shape (n s : Nat) (w : List Char) (hw : w ∈ wordsFrom s n) :
    ' ' ∉ w ∧ w ≠ [] := by
  obtain ⟨k, rfl⟩ := wordsFrom_mem n s w hw
  constructor
  · intro hmem
    have := List.eq_of_mem_replicate hmem
    simp at this
  · simp

theorem position_eq_none_iff (tok : List Char) (l : List (List Char)) :
    position (fun w => w = tok) l = none ↔ tok ∉ l := by
  induction l with
  | nil => simp [position]
  | cons x xs ih =>
    by_cases hx : x = tok
    · subst hx
      simp [position]
    · simp only [position, List.mem_cons]
      rw [if_neg (by simp [hx]), Option.map_eq_none']
      constructor
      · intro h hc
        rcases hc with hc | hc
        · exact hx hc.symm
        · exact (ih.mp h) hc
      · intro h
        exact ih.mpr (fun hc => h (Or.inr hc))

theorem position_isSome_of_mem (tok : List Char) (l : List (List Char))
    (h : tok ∈ l) : ∃ i, position (fun w => w = tok) l = some i := by
  cases hpos : position (fun w => w = tok) l with
  | none => exact absurd h ((position_eq_none_iff tok l).mp hpos)
  | some i => exact ⟨i, rfl⟩

/-! ## `lookup` lemmas -/

theorem lookup_ok_of_position (cat : Category) (j : Nat) (tok : List Char)
    (i : Nat) (h : position (fun w => w = tok) (tableOf cat) = some i) :
    lookup cat j tok = .ok (i % 65536) := by
  simp [lookup, h]

theorem lookup_error_of_not_mem (cat : Category) (j : Nat) (tok : List Char)
    (h : tok ∉ tableOf cat) :
    lookup cat j tok = .error (.notFound cat j) := by
  rw [lookup, (position_eq_none_iff tok (tableOf cat)).mpr h]

theorem lookup_ok_mem (cat : Category) (j : Nat) (tok : List Char) (v : Nat)
    (h : lookup cat j tok = .ok v) : tok ∈ tableOf cat := by
  by_contra hmem
  rw [lookup_error_of_not_mem cat j tok hmem] at h
  exact Except.noConfusion h

theorem lookup_ok_of_mem (cat : Category) (j : Nat) (tok : List Char)
    (h : tok ∈ tableOf cat) : ∃ v, lookup cat j tok = .ok v := by
  obtain ⟨i, hi⟩ := position_isSome_of_mem tok (tableOf cat) h
  exact ⟨i % 65536, lookup_ok_of_position cat j tok i hi⟩

/-! ## Sentence split/join lemmas -/

theorem splitSp_of_no_space (t : List Char) (h : ' ' ∉ t) : splitSp t = [t] := by
  induction t with
  | nil => rfl
  | cons c cs ih =>
    have hc : c ≠ ' ' := fun hc => h (by simp [hc])
    have hcs : ' ' ∉ cs := fun hm => h (by simp [hm])
    simp [splitSp, hc, ih hcs]

theorem splitSp_append_space (t rest : List Char) (h : ' ' ∉ t) :
    splitSp (t ++ ' ' :: rest) = t :: splitSp rest := by
  induction t with
  | nil => simp [splitSp]
  | cons c cs ih =>
    have hc : c ≠ ' ' := fun hc => h (by simp [hc])
    have hcs : ' ' ∉ cs := fun hm => h (by simp [hm])
    simp [splitSp, hc, ih hcs]

/-- Splitting on spaces inverts joining with spaces as long as no token
contains a space. -/
theorem splitSp_joinSp (ts : List (List Char)) (hne : ts ≠ [])
    (h : ∀ t ∈ ts, ' ' ∉ t) : splitSp (joinSp ts) = ts := by
  induction ts with
  | nil => exact absurd rfl hne
  | cons t ts ih =>
    cases ts with
    | nil => exact splitSp_of_no_space t (h t (by simp))
    | cons u us =>
      have hjoin : joinSp (t :: u :: us) = t ++ ' ' :: joinSp (u :: us) := rfl
      rw [hjoin, splitSp_append_space t _ (h t (by simp))]
      rw [ih (by simp) (fun x hx => h x (by simp [List.mem_cons] at hx ⊢; tauto))]

/-! ## Numeral-token lemmas -/

/-- Shape of the decimal rendering for every value a numeric slot can carry
(`5`-bit slot of NORMAL, `7`-bit slot of SHORT, both below 128): no space,
nonempty, all digits, `u16`-parseable back to the same value, and no leading
zero except for `0` itself. -/
theorem numTok_facts : ∀ v : Nat, v < 128 →
    ' ' ∉ Nat.toDigits 10 v ∧ Nat.toDigits 10 v ≠ [] ∧
      (∀ c ∈ Nat.toDigits 10 v, c.isDigit) ∧
      parseU16 (Nat.toDigits 10 v) = some v ∧
      ((Nat.toDigits 10 v).headI = '0' → v = 0) := by
  decide

/-! ## `decodeSlots` and `generate_inverse` plumbing -/

/-- A successful `decodeSlots` forces every slot token to resolve, and the
value list always has exactly the 12 entries. -/
theorem decodeSlots_ok_inv (t0 t1 t2 t4 t6 t7 t8 t9 t10 t12 t13 t14 : List Char)
    (vals : List Nat)
    (h : decodeSlots t0 t1 t2 t4 t6 t7 t8 t9 t10 t12 t13 t14 = .ok vals) :
    vals.length = 12 ∧ t0 ∈ NAMES ∧ t1 ∈ NAMES ∧ t2 ∈ NAMES ∧
      t4 ∈ PERSONAL_NOUNS ∧ t6 ∈ PLACES ∧ t7 ∈ VERBS ∧ t8 ∈ NAMES ∧
      t9 ∈ NAMES ∧ t10 ∈ NAMES ∧ (parseU16 t12).isSome ∧
      t13 ∈ ADJECTIVES ∧ t14 ∈ ANIMALS := by
  rw [decodeSlots] at h
  cases h0 : lookup .names 0 t0 with
  | error e => rw [h0] at h; exact absurd h (by simp)
  | ok v0 =>
  rw [h0] at h
  cases h1 : lookup .names 1 t1 with
  | error e => rw [h1] at h; exact absurd h (by simp)
  | ok v1 =>
  rw [h1] at h
  cases h2 : lookup .names 2 t2 with
  | error e => rw [h2] at h; exact absurd h (by simp)
  | ok v2 =>
  rw [h2] at h
  cases h3 : lookup .personalNouns 4 t4 with
  | error e => rw [h3] at h; exact absurd h (by simp)
  | ok v3 =>
  rw [h3] at h
  cases h4 : lookup .places 6 t6 with
  | error e => rw [h4] at h; exact absurd h (by simp)
  | ok v4 =>
  rw [h4] at h
  cases h5 : lookup .verbs 7 t7 with
  | error e => rw [h5] at h; exact absurd h (by simp)
  | ok v5 =>
  rw [h5] at h
  cases h6 : lookup .names 8 t8 with
  | error e => rw [h6] at h; exact absurd h (by simp)
  | ok v6 =>
  rw [h6] at h
  cases h7 : lookup .names 9 t9 with
  | error e => rw [h7] at h; exact absurd h (by simp)
  | ok v7 =>
  rw [h7] at h
  cases h8 : lookup .names 10 t10 with
  | error e => rw [h8] at h; exact absurd h (by simp)
  | ok v8 =>
  rw [h8] at h
  cases h9 : parseNumTok t12 with
  | error e => rw [h9] at h; exact absurd h (by simp)
  | ok v9 =>
  rw [h9] at h
  cases h10 : lookup .adjectives 13 t13 with
  | error e => rw [h10] at h; exact absurd h (by simp)
  | ok v10 =>
  rw [h10] at h
  cases h11 : lookup .animals 14 t14 with
  | error e => rw [h11] at h; exact absurd h (by simp)
  | ok v11 =>
  rw [h11] at h
  have hvals : vals = [v0, v1, v2, v3, v4, v5, v6, v7, v8, v9, v10, v11] := by
    cases h; rfl
  subst hvals
  refine ⟨rfl, lookup_ok_mem _ _ _ _ h0, lookup_ok_mem _ _ _ _ h1,
    lookup_ok_mem _ _ _ _ h2, lookup_ok_mem _ _ _ _ h3,
    lookup_ok_mem _ _ _ _ h4, lookup_ok_mem _ _ _ _ h5,
    lookup_ok_mem _ _ _ _ h6, lookup_ok_mem _ _ _ _ h7,
    lookup_ok_mem _ _ _ _ h8, ?_, lookup_ok_mem _ _ _ _ h10,
    lookup_ok_mem _ _ _ _ h11⟩
  rw [parseNumTok] at h9
  cases hp : parseU16 t12 with
  | none => rw [hp] at h9; exact absurd h9 (by simp)
  | some v => simp

/-- With at least 15 tokens the guard passes, every index is in range, and
`generate_inverse` is the slot decode followed by the bit repack. -/
theorem generate_inverse_of_len (s : List Char) (h : 15 ≤ (splitSp s).length) :
    generate_inverse s =
      match decodeSlots ((splitSp s).getD 0 []) ((splitSp s).getD 1 [])
          ((splitSp s).getD 2 []) ((splitSp s).getD 4 [])
          ((splitSp s).getD 6 []) ((splitSp s).getD 7 [])
          ((splitSp s).getD 8 []) ((splitSp s).getD 9 [])
          ((splitSp s).getD 10 []) ((splitSp s).getD 12 [])
          ((splitSp s).getD 13 []) ((splitSp s).getD 14 []) with
      | .error e => .err e
      | .ok vals =>
        match de_partition (to_bits_parted vals) with
        | none => DecodeResult.crash
        | some bytes => .ok bytes := by
  have hGet : ∀ i, i < 15 → (splitSp s)[i]? = some ((splitSp s).getD i []) := by
    intro i hi
    rw [List.getElem?_eq_getElem (by omega), List.getD_eq_getElem _ _ (by omega)]
  rw [generate_inverse]
  simp only [if_neg (by omega : ¬ ((splitSp s).length < 15))]
  rw [hGet 0 (by omega), hGet 1 (by omega), hGet 2 (by omega), hGet 4 (by omega),
    hGet 6 (by omega), hGet 7 (by omega), hGet 8 (by omega), hGet 9 (by omega),
    hGet 10 (by omega), hGet 12 (by omega), hGet 13 (by omega), hGet 14 (by omega)]

/-- A slot-resolution error is the decode result verbatim. -/
theorem generate_inverse_err_of_decode_error (s : List Char)
    (hlen : 15 ≤ (splitSp s).length) (e : DecodeErr)
    (hds : decodeSlots ((splitSp s).getD 0 []) ((splitSp s).getD 1 [])
        ((splitSp s).getD 2 []) ((splitSp s).getD 4 [])
        ((splitSp s).getD 6 []) ((splitSp s).getD 7 [])
        ((splitSp s).getD 8 []) ((splitSp s).getD 9 [])
        ((splitSp s).getD 10 []) ((splitSp s).getD 12 [])
        ((splitSp s).getD 13 []) ((splitSp s).getD 14 []) = .error e) :
    generate_inverse s = .err e := by
  rw [generate_inverse_of_len s hlen, hds]

/-- Successfully resolved slots feed the repacked bytes straight through. -/
theorem generate_inverse_ok_of_decode_ok (s : List Char)
    (hlen : 15 ≤ (splitSp s).length) (vals : List Nat) (bytes : List Nat)
    (hds : decodeSlots ((splitSp s).getD 0 []) ((splitSp s).getD 1 [])
        ((splitSp s).getD 2 []) ((splitSp s).getD 4 [])
        ((splitSp s).getD 6 []) ((splitSp s).getD 7 [])
        ((splitSp s).getD 8 []) ((splitSp s).getD 9 [])
        ((splitSp s).getD 10 []) ((splitSp s).getD 12 [])
        ((splitSp s).getD 13 []) ((splitSp s).getD 14 []) = .ok vals)
    (hdp : de_partition (to_bits_parted vals) = some bytes) :
    generate_inverse s = .ok bytes := by
  rw [generate_inverse_of_len s hlen, hds]
  show (match de_partition (to_bits_parted vals) with
    | none => DecodeResult.crash
    | some b => DecodeResult.ok b) = DecodeResult.ok bytes
  rw [hdp]

/-! ## Helpers for the round-trip and template claims -/

theorem partition_getD_lt (parts bytes : List Nat) (hps : ∀ p ∈ parts, p ≤ 16)
    (i : Nat) (hi : i < parts.length) :
    (partition parts bytes).getD i 0 < 2 ^ (parts.getD i 0) := by
  have hlen : (partitionGo parts (to_bits bytes)).length = parts.length :=
    partitionGo_length parts (to_bits bytes)
  have hiw : i < (partitionGo parts (to_bits bytes)).length := by omega
  have hizip : i < ((partitionGo parts (to_bits bytes)).zip parts).length := by
    rw [List.length_zip]
    omega
  have hz := @List.getElem_zip Nat Nat (partitionGo parts (to_bits bytes)) parts i hizip
  have hmem := hz ▸ List.getElem_mem hizip
  have hlt := partitionGo_zip_lt parts (to_bits bytes) hps (to_bits_le_one bytes) _ hmem
  rw [partition, List.getD_eq_getElem _ _ hiw, List.getD_eq_getElem _ _ hi]
  exact hlt

theorem getD_list_twelve (l : List Nat) (h : l.length = 12) :
    [l.getD 0 0, l.getD 1 0, l.getD 2 0, l.getD 3 0, l.getD 4 0, l.getD 5 0,
     l.getD 6 0, l.getD 7 0, l.getD 8 0, l.getD 9 0, l.getD 10 0,
     l.getD 11 0] = l := by
  rcases l with _ | ⟨a0, _ | ⟨a1, _ | ⟨a2, _ | ⟨a3, _ | ⟨a4, _ | ⟨a5, _ |
    ⟨a6, _ | ⟨a7, _ | ⟨a8, _ | ⟨a9, _ | ⟨a10, _ | ⟨a11, rest⟩⟩⟩⟩⟩⟩⟩⟩⟩⟩⟩⟩ <;>
    simp_all

theorem no_space_replicate (k : Nat) : ' ' ∉ List.replicate k 'a' := by
  intro h
  have := List.eq_of_mem_replicate h
  simp at this

theorem lookup_NAMES (j v : Nat) (hv : v < 16384) :
    lookup .names j (wordAt NAMES v) = .ok v := by
  have hg : wordAt NAMES v = List.replicate (0 + v + 1) 'a' := by
    rw [wordAt, NAMES]
    exact wordsFrom_getD 16384 0 v hv
  rw [lookup, hg]
  show (match position (fun w => w = List.replicate (0 + v + 1) 'a')
      (wordsFrom 0 16384) with
    | some i => Except.ok (i % 65536)
    | none => Except.error (DecodeErr.notFound .names j)) = Except.ok v
  rw [wordsFrom_position 16384 0 v hv]
  show Except.ok (v % 65536) = Except.ok v
  rw [Nat.mod_eq_of_lt (by omega)]

theorem lookup_PERSONAL_NOUNS (j v : Nat) (hv : v < 8192) :
    lookup .personalNouns j (wordAt PERSONAL_NOUNS v) = .ok v := by
  have hg : wordAt PERSONAL_NOUNS v = List.replicate (0 + v + 1) 'a' := by
    rw [wordAt, PERSONAL_NOUNS]
    exact wordsFrom_getD 8192 0 v hv
  rw [lookup, hg]
  show (match position (fun w => w = List.replicate (0 + v + 1) 'a')
      (wordsFrom 0 8192) with
    | some i => Except.ok (i % 65536)
    | none => Except.error (DecodeErr.notFound .personalNouns j)) = Except.ok v
  rw [wordsFrom_position 8192 0 v hv]
  show Except.ok (v % 65536) = Except.ok v
  rw [Nat.mod_eq_of_lt (by omega)]

theorem lookup_PLACES (j v : Nat) (hv : v < 8192) :
    lookup .places j (wordAt PLACES v) = .ok v := by
  have hg : wordAt PLACES v = List.replicate (0 + v + 1) 'a' := by
    rw [wordAt, PLACES]
    exact wordsFrom_getD 8192 0 v hv
  rw [lookup, hg]
  show (match position (fun w => w = List.replicate (0 + v + 1) 'a')
      (wordsFrom 0 8192) with
    | some i => Except.ok (i % 65536)
    | none => Except.error (DecodeErr.notFound .places j)) = Except.ok v
  rw [wordsFrom_position 8192 0 v hv]
  show Except.ok (v % 65536) = Except.ok v
  rw [Nat.mod_eq_of_lt (by omega)]

theorem lookup_VERBS (j v : Nat) (hv : v < 1024) :
    lookup .verbs j (wordAt VERBS v) = .ok v := by
  have hg : wordAt VERBS v = List.replicate (0 + v + 1) 'a' := by
    rw [wordAt, VERBS]
    exact wordsFrom_getD 1024 0 v hv
  rw [lookup, hg]
  show (match position (fun w => w = List.replicate (0 + v + 1) 'a')
      (wordsFrom 0 1024) with
    | some i => Except.ok (i % 65536)
    | none => Except.error (DecodeErr.notFound .verbs j)) = Except.ok v
  rw [wordsFrom_position 1024 0 v hv]
  show Except.ok (v % 65536) = Except.ok v
  rw [Nat.mod_eq_of_lt (by omega)]

theorem lookup_ADJECTIVES (j v : Nat) (hv : v < 256) :
    lookup .adjectives j (wordAt ADJECTIVES v) = .ok v := by
  have hg : wordAt ADJECTIVES v = List.replicate (0 + v + 1) 'a' := by
    rw [wordAt, ADJECTIVES]
    exact wordsFrom_getD 256 0 v hv
  rw [lookup, hg]
  show (match position (fun w => w = List.replicate (0 + v + 1) 'a')
      (wordsFrom 0 256) with
    | some i => Except.ok (i % 65536)
    | none => Except.error (DecodeErr.notFound .adjectives j)) = Except.ok v
  rw [wordsFrom_position 256 0 v hv]
  show Except.ok (v % 65536) = Except.ok v
  rw [Nat.mod_eq_of_lt (by omega)]

theorem lookup_ANIMALS (j v : Nat) (hv : v < 128) :
    lookup .animals j (wordAt ANIMALS v) = .ok v := by
  have hg : wordAt ANIMALS v = List.replicate (0 + v + 1) 'a' := by
    rw [wordAt, ANIMALS]
    exact wordsFrom_getD 128 0 v hv
  rw [lookup, hg]
  show (match position (fun w => w = List.replicate (0 + v + 1) 'a')
      (wordsFrom 0 128) with
    | some i => Except.ok (i % 65536)
    | none => Except.error (DecodeErr.notFound .animals j)) = Except.ok v
  rw [wordsFrom_position 128 0 v hv]
  show Except.ok (v % 65536) = Except.ok v
  rw [Nat.mod_eq_of_lt (by omega)]

/-- Bounds for the 12 NORMAL partition values, instantiated per slot. -/
theorem partition_NORMAL_bounds (bytes : List Nat) :
    (partition NORMAL bytes).getD 0 0 < 4096 ∧
      (partition NORMAL bytes).getD 1 0 < 2048 ∧
      (partition NORMAL bytes).getD 2 0 < 16384 ∧
      (partition NORMAL bytes).getD 3 0 < 8192 ∧
      (partition NORMAL bytes).getD 4 0 < 8192 ∧
      (partition NORMAL bytes).getD 5 0 < 1024 ∧
      (partition NORMAL bytes).getD 6 0 < 4096 ∧
      (partition NORMAL bytes).getD 7 0 < 2048 ∧
      (partition NORMAL bytes).getD 8 0 < 16384 ∧
      (partition NORMAL bytes).getD 9 0 < 32 ∧
      (partition NORMAL bytes).getD 10 0 < 64 ∧
      (partition NORMAL bytes).getD 11 0 < 128 := by
  have h : ∀ i, i < 12 →
      (partition NORMAL bytes).getD i 0 < 2 ^ (NORMAL.getD i 0) := by
    intro i hi
    exact partition_getD_lt NORMAL bytes NORMAL_le16 i (by rw [show NORMAL.length = 12 from rfl]; omega)
  exact ⟨lt_of_lt_of_le (h 0 (by omega)) (by decide),
    lt_of_lt_of_le (h 1 (by omega)) (by decide),
    lt_of_lt_of_le (h 2 (by omega)) (by decide),
    lt_of_lt_of_le (h 3 (by omega)) (by decide),
    lt_of_lt_of_le (h 4 (by omega)) (by decide),
    lt_of_lt_of_le (h 5 (by omega)) (by decide),
    lt_of_lt_of_le (h 6 (by omega)) (by decide),
    lt_of_lt_of_le (h 7 (by omega)) (by decide),
    lt_of_lt_of_le (h 8 (by omega)) (by decide),
    lt_of_lt_of_le (h 9 (by omega)) (by decide),
    lt_of_lt_of_le (h 10 (by omega)) (by decide),
    lt_of_lt_of_le (h 11 (by omega)) (by decide)⟩

/-- `generate_inverse` on an input that splits into exactly 15 known tokens:
the guard passes and the slot tokens feed `decodeSlots` directly. -/
theorem generate_inverse_tokens (s : List Char)
    (t0 t1 t2 t3 t4 t5 t6 t7 t8 t9 t10 t11 t12 t13 t14 : List Char)
    (hsp : splitSp s =
      [t0, t1, t2, t3, t4, t5, t6, t7, t8, t9, t10, t11, t12, t13, t14]) :
    generate_inverse s =
      match decodeSlots t0 t1 t2 t4 t6 t7 t8 t9 t10 t12 t13 t14 with
      | .error e => DecodeResult.err e
      | .ok vals =>
        match de_partition (to_bits_parted vals) with
        | none => DecodeResult.crash
        | some bytes => DecodeResult.ok bytes := by
  rw [generate_inverse, hsp]
  rfl

/-- The NORMAL sentence splits back into exactly its 15 template tokens. -/
theorem splitSp_generateSentence (bytes : List Nat) :
    splitSp (generateSentence bytes) = genTokens bytes := by
  obtain ⟨h0, h1, h2, h3, h4, h5, h6, h7, h8, h9, h10, h11⟩ :=
    partition_NORMAL_bounds bytes
  apply splitSp_joinSp
  · simp [genTokens]
  · intro t ht
    have hword : ∀ (tbl : List (List Char)) (s N v : Nat), tbl = wordsFrom s N →
        v < N → ' ' ∉ wordAt tbl v := by
      intro tbl s N v htab hv
      rw [wordAt, htab, wordsFrom_getD N s v hv]
      exact no_space_replicate _
    simp only [genTokens, List.mem_cons, List.not_mem_nil, or_false] at ht
    rcases ht with rfl | rfl | rfl | rfl | rfl | rfl | rfl | rfl | rfl | rfl |
        rfl | rfl | rfl | rfl | rfl
    · exact hword NAMES 0 16384 _ rfl (by omega)
    · exact hword NAMES 0 16384 _ rfl (by omega)
    · exact hword NAMES 0 16384 _ rfl h2
    · decide
    · exact hword PERSONAL_NOUNS 0 8192 _ rfl h3
    · decide
    · exact hword PLACES 0 8192 _ rfl h4
    · exact hword VERBS 0 1024 _ rfl h5
    · exact hword NAMES 0 16384 _ rfl (by omega)
    · exact hword NAMES 0 16384 _ rfl (by omega)
    · exact hword NAMES 0 16384 _ rfl h8
    · decide
    · exact (numTok_facts _ (by omega)).1
    · exact hword ADJECTIVES 0 256 _ rfl (by omega)
    · exact hword ANIMALS 0 128 _ rfl h11

/-! ## Helpers for the unresolvable-word claim -/

theorem checkOk_word_mem (sp : List (List Char)) (i : Nat) (cat : Category)
    (hi : slotCat i = some cat) (h : checkOk sp i = true) :
    sp.getD i [] ∈ tableOf cat := by
  rw [checkOk, hi] at h
  exact of_decide_eq_true h

theorem checkOk_num_isSome (sp : List (List Char))
    (h : checkOk sp 12 = true) : (parseU16 (sp.getD 12 [])).isSome := by
  have h12 : slotCat 12 = none := by decide
  rw [checkOk, h12] at h
  exact h

theorem parseNumTok_ok_of_isSome (t : List Char) (h : (parseU16 t).isSome) :
    ∃ v, parseNumTok t = .ok v := by
  cases hp : parseU16 t with
  | none => rw [hp] at h; simp at h
  | some v => exact ⟨v, by rw [parseNumTok, hp]⟩

/-- A slot token missing from its category table rules out a successful
decode: the result is some error. -/
theorem decode_err_of_slot_missing (s : List Char)
    (hlen : 15 ≤ (splitSp s).length) (j : Nat) (cat : Category)
    (hslot : slotCat j = some cat)
    (hmem : (splitSp s).getD j [] ∉ tableOf cat) :
    ∃ e, generate_inverse s = .err e := by
  cases hds : decodeSlots ((splitSp s).getD 0 []) ((splitSp s).getD 1 [])
      ((splitSp s).getD 2 []) ((splitSp s).getD 4 [])
      ((splitSp s).getD 6 []) ((splitSp s).getD 7 [])
      ((splitSp s).getD 8 []) ((splitSp s).getD 9 [])
      ((splitSp s).getD 10 []) ((splitSp s).getD 12 [])
      ((splitSp s).getD 13 []) ((splitSp s).getD 14 []) with
  | error e => exact ⟨e, generate_inverse_err_of_decode_error s hlen e hds⟩
  | ok vals =>
    exfalso
    obtain ⟨-, m0, m1, m2, m4, m6, m7, m8, m9, m10, -, m13, m14⟩ :=
      decodeSlots_ok_inv _ _ _ _ _ _ _ _ _ _ _ _ _ hds
    rw [slotCat] at hslot
    by_cases hd : j = 0 ∨ j = 1 ∨ j = 2 ∨ j = 8 ∨ j = 9 ∨ j = 10
    · rw [if_pos hd] at hslot
      injection hslot with hcat
      subst hcat
      rcases hd with rfl | rfl | rfl | rfl | rfl | rfl
      exacts [hmem m0, hmem m1, hmem m2, hmem m8, hmem m9, hmem m10]
    · rw [if_neg hd] at hslot
      by_cases h4 : j = 4
      · rw [if_pos h4] at hslot
        injection hslot with hcat
        subst hcat
        subst h4
        exact hmem m4
      · rw [if_neg h4] at hslot
        by_cases h6 : j = 6
        · rw [if_pos h6] at hslot
          injection hslot with hcat
          subst hcat
          subst h6
          exact hmem m6
        · rw [if_neg h6] at hslot
          by_cases h7 : j = 7
          · rw [if_pos h7] at hslot
            injection hslot with hcat
            subst hcat
            subst h7
            exact hmem m7
          · rw [if_neg h7] at hslot
            by_cases h13 : j = 13
            · rw [if_pos h13] at hslot
              injection hslot with hcat
              subst hcat
              subst h13
              exact hmem m13
            · rw [if_neg h13] at hslot
              by_cases h14 : j = 14
              · rw [if_pos h14] at hslot
                injection hslot with hcat
                subst hcat
                subst h14
                exact hmem m14
              · rw [if_neg h14] at hslot
                exact Option.noConfusion hslot

/-! ## Claim theorems -/

/-- Claim C7: converting a 16-byte array to its flat MSB-first bit sequence
and repacking recovers the array exactly: `de_partition (to_bits B) = B`. -/
theorem bits_roundtrip (bytes : List Nat) (hlen : bytes.length = 16)
    (hb : ∀ b ∈ bytes, b < 256) :
    de_partition (to_bits bytes) = some bytes :=
  de_partition_to_bits_eq bytes hlen hb

/-- Witness for C7 at a concrete 16-byte buffer. -/
theorem bits_roundtrip_witness :
    de_partition (to_bits [14, 224, 1, 199, 18, 243, 75, 41, 164, 204, 244, 136, 56, 179, 88, 122]) =
      some [14, 224, 1, 199, 18, 243, 75, 41, 164, 204, 244, 136, 56, 179, 88, 122] :=
  bits_roundtrip _ (by decide) (by decide)

/-- Claim C3: an input splitting into fewer than the template's 15 tokens is
rejected with the token-count error, i.e. before any table lookup or numeral
parse could produce its own error. -/
theorem short_input_rejected (s : List Char) (h : (splitSp s).length < 15) :
    generate_inverse s = .err .badLength := by
  rw [generate_inverse, if_pos h]

/-- Witness for C3 at a concrete two-token input. -/
theorem short_input_rejected_witness :
    generate_inverse ['h', 'i', ' ', 'a'] = .err .badLength :=
  short_input_rejected ['h', 'i', ' ', 'a'] (by decide)

/-- Claim C8: `generate_inverse` is total: on every input it returns either a
16-byte token or an error, and never reaches a panic (`crash`): after the
length guard every token index is in range and the rebuilt bit sequence has
exactly the 128 bits `de_partition` needs. -/
theorem generate_inverse_total (s : List Char) :
    (∃ bytes, generate_inverse s = .ok bytes ∧ bytes.length = 16) ∨
      ∃ e, generate_inverse s = .err e := by
  by_cases h : (splitSp s).length < 15
  · right
    exact ⟨.badLength, by rw [generate_inverse, if_pos h]⟩
  · cases hds : decodeSlots ((splitSp s).getD 0 []) ((splitSp s).getD 1 [])
        ((splitSp s).getD 2 []) ((splitSp s).getD 4 [])
        ((splitSp s).getD 6 []) ((splitSp s).getD 7 [])
        ((splitSp s).getD 8 []) ((splitSp s).getD 9 [])
        ((splitSp s).getD 10 []) ((splitSp s).getD 12 [])
        ((splitSp s).getD 13 []) ((splitSp s).getD 14 []) with
    | error e =>
      exact Or.inr ⟨e, generate_inverse_err_of_decode_error s (by omega) e hds⟩
    | ok vals =>
      have h12 := (decodeSlots_ok_inv _ _ _ _ _ _ _ _ _ _ _ _ _ hds).1
      have h128 := to_bits_parted_length vals h12
      have hdp : de_partition (to_bits_parted vals) =
          some ((List.range 16).map
            (fun i => to_byte (((to_bits_parted vals).drop (8 * i)).take 8) % 256)) := by
        rw [de_partition, if_pos (by omega)]
      exact Or.inl ⟨_, generate_inverse_ok_of_decode_ok s (by omega) vals _ hds hdp,
        by simp⟩

/-- Claim C1: for every 128-bit token, decoding the NORMAL sentence produced
from it recovers the token exactly:
`generate_inverse (generate_from T) = ok T`, for all 16-byte buffers,
including the all-zero and all-ones tokens. -/
theorem normal_roundtrip (bytes : List Nat) (hlen : bytes.length = 16)
    (hb : ∀ b ∈ bytes, b < 256) :
    generate_inverse (generate_from bytes) = .ok bytes := by
  obtain ⟨h0, h1, h2, h3, h4, h5, h6, h7, h8, h9, h10, h11⟩ :=
    partition_NORMAL_bounds bytes
  have hsp : splitSp (generate_from bytes) =
      [wordAt NAMES ((partition NORMAL bytes).getD 0 0),
       wordAt NAMES ((partition NORMAL bytes).getD 1 0),
       wordAt NAMES ((partition NORMAL bytes).getD 2 0), theTok,
       wordAt PERSONAL_NOUNS ((partition NORMAL bytes).getD 3 0), ofTok,
       wordAt PLACES ((partition NORMAL bytes).getD 4 0),
       wordAt VERBS ((partition NORMAL bytes).getD 5 0),
       wordAt NAMES ((partition NORMAL bytes).getD 6 0),
       wordAt NAMES ((partition NORMAL bytes).getD 7 0),
       wordAt NAMES ((partition NORMAL bytes).getD 8 0), andTok,
       Nat.toDigits 10 ((partition NORMAL bytes).getD 9 0),
       wordAt ADJECTIVES ((partition NORMAL bytes).getD 10 0),
       wordAt ANIMALS ((partition NORMAL bytes).getD 11 0)] :=
    splitSp_generateSentence bytes
  have hwlen : (partition NORMAL bytes).length = 12 := by
    rw [partition, partitionGo_length]
    rfl
  rw [generate_inverse_tokens _ _ _ _ _ _ _ _ _ _ _ _ _ _ _ _ hsp]
  have l0 := lookup_NAMES 0 ((partition NORMAL bytes).getD 0 0) (by omega)
  have l1 := lookup_NAMES 1 ((partition NORMAL bytes).getD 1 0) (by omega)
  have l2 := lookup_NAMES 2 ((partition NORMAL bytes).getD 2 0) (by omega)
  have l4 := lookup_PERSONAL_NOUNS 4 ((partition NORMAL bytes).getD 3 0) (by omega)
  have l6 := lookup_PLACES 6 ((partition NORMAL bytes).getD 4 0) (by omega)
  have l7 := lookup_VERBS 7 ((partition NORMAL bytes).getD 5 0) (by omega)
  have l8 := lookup_NAMES 8 ((partition NORMAL bytes).getD 6 0) (by omega)
  have l9 := lookup_NAMES 9 ((partition NORMAL bytes).getD 7 0) (by omega)
  have l10 := lookup_NAMES 10 ((partition NORMAL bytes).getD 8 0) (by omega)
  have lnum : parseNumTok (Nat.toDigits 10 ((partition NORMAL bytes).getD 9 0)) =
      .ok ((partition NORMAL bytes).getD 9 0) := by
    rw [parseNumTok, (numTok_facts _ (by omega)).2.2.2.1]
  have l13 := lookup_ADJECTIVES 13 ((partition NORMAL bytes).getD 10 0) (by omega)
  have l14 := lookup_ANIMALS 14 ((partition NORMAL bytes).getD 11 0) (by omega)
  simp only [decodeSlots, l0, l1, l2, l4, l6, l7, l8, l9, l10, lnum, l13, l14]
  rw [getD_list_twelve _ hwlen, to_bits_parted_partition bytes hlen,
    de_partition_to_bits_eq bytes hlen hb]

/-- Witness for C1 at the all-zero and all-ones boundary tokens. -/
theorem normal_roundtrip_witness :
    generate_inverse (generate_from (List.replicate 16 0)) =
        .ok (List.replicate 16 0) ∧
      generate_inverse (generate_from (List.replicate 16 255)) =
        .ok (List.replicate 16 255) :=
  ⟨normal_roundtrip _ (by simp) (by simp),
    normal_roundtrip _ (by simp) (fun b hb => by
      rw [List.eq_of_mem_replicate hb]; omega)⟩

/-- Claim C9: the decode result depends only on the tokens at the 12 slot
positions 0, 1, 2, 4, 6, 7, 8, 9, 10, 12, 13, 14; two inputs with at least
15 tokens each that agree there decode identically — connectives and tokens
beyond index 14 are never inspected. -/
theorem inverse_depends_only_on_slots (s1 s2 : List Char)
    (h1 : 15 ≤ (splitSp s1).length) (h2 : 15 ≤ (splitSp s2).length)
    (hagree : ∀ j ∈ slotOrder, (splitSp s1).getD j [] = (splitSp s2).getD j []) :
    generate_inverse s1 = generate_inverse s2 := by
  rw [generate_inverse_of_len s1 h1, generate_inverse_of_len s2 h2]
  rw [hagree 0 (by decide), hagree 1 (by decide), hagree 2 (by decide),
    hagree 4 (by decide), hagree 6 (by decide), hagree 7 (by decide),
    hagree 8 (by decide), hagree 9 (by decide), hagree 10 (by decide),
    hagree 12 (by decide), hagree 13 (by decide), hagree 14 (by decide)]

/-- Witness for C9: two sentences differing at connective position 3 and in
a 16th token decode to the same result. -/
theorem inverse_depends_only_on_slots_witness :
    generate_inverse (joinSp [['a'], ['a'], ['a'], ['x'], ['a'], ofTok, ['a'],
        ['a'], ['a'], ['a'], ['a'], andTok, ['7'], ['a'], ['a']]) =
      generate_inverse (joinSp [['a'], ['a'], ['a'], ['y'], ['a'], ofTok, ['a'],
        ['a'], ['a'], ['a'], ['a'], andTok, ['7'], ['a'], ['a'], ['q']]) :=
  inverse_depends_only_on_slots _ _ (by decide) (by decide) (by decide)

/-- Claim C4: with at least 15 tokens, a token at a word-category slot
position that has no exact match in that slot's table makes
`generate_inverse` fail (never return a token); and when that slot is the
first failing check, the error carries the category and the splitted index
of the failing slot. -/
theorem unresolvable_word_rejected (s : List Char) (j : Nat) (cat : Category)
    (hlen : 15 ≤ (splitSp s).length) (hslot : slotCat j = some cat)
    (hmem : (splitSp s).getD j [] ∉ tableOf cat) :
    (∃ e, generate_inverse s = .err e) ∧
      ((∀ i ∈ earlierSlots j, checkOk (splitSp s) i = true) →
        generate_inverse s = .err (.notFound cat j)) := by
  refine ⟨decode_err_of_slot_missing s hlen j cat hslot hmem, ?_⟩
  intro hearly
  rw [slotCat] at hslot
  by_cases hd : j = 0 ∨ j = 1 ∨ j = 2 ∨ j = 8 ∨ j = 9 ∨ j = 10
  · rw [if_pos hd] at hslot
    injection hslot with hcat
    subst hcat
    rcases hd with rfl | rfl | rfl | rfl | rfl | rfl
    · -- slot position 0
      have herr := lookup_error_of_not_mem .names 0 _ hmem
      exact generate_inverse_err_of_decode_error s hlen (.notFound .names 0)
        (by simp only [decodeSlots, herr])
    · -- slot position 1
      have m0 := checkOk_word_mem _ 0 .names (by decide) (hearly 0 (by decide))
      obtain ⟨v0, hv0⟩ := lookup_ok_of_mem .names 0 _ m0
      have herr := lookup_error_of_not_mem .names 1 _ hmem
      exact generate_inverse_err_of_decode_error s hlen (.notFound .names 1)
        (by simp only [decodeSlots, hv0, herr])
    · -- slot position 2
      have m0 := checkOk_word_mem _ 0 .names (by decide) (hearly 0 (by decide))
      obtain ⟨v0, hv0⟩ := lookup_ok_of_mem .names 0 _ m0
      have m1 := checkOk_word_mem _ 1 .names (by decide) (hearly 1 (by decide))
      obtain ⟨v1, hv1⟩ := lookup_ok_of_mem .names 1 _ m1
      have herr := lookup_error_of_not_mem .names 2 _ hmem
      exact generate_inverse_err_of_decode_error s hlen (.notFound .names 2)
        (by simp only [decodeSlots, hv0, hv1, herr])
    · -- slot position 8
      have m0 := checkOk_word_mem _ 0 .names (by decide) (hearly 0 (by decide))
      obtain ⟨v0, hv0⟩ := lookup_ok_of_mem .names 0 _ m0
      have m1 := checkOk_word_mem _ 1 .names (by decide) (hearly 1 (by decide))
      obtain ⟨v1, hv1⟩ := lookup_ok_of_mem .names 1 _ m1
      have m2 := checkOk_word_mem _ 2 .names (by decide) (hearly 2 (by decide))
      obtain ⟨v2, hv2⟩ := lookup_ok_of_mem .names 2 _ m2
      have m4 := checkOk_word_mem _ 4 .personalNouns (by decide) (hearly 4 (by decide))
      obtain ⟨v3, hv4⟩ := lookup_ok_of_mem .personalNouns 4 _ m4
      have m6 := checkOk_word_mem _ 6 .places (by decide) (hearly 6 (by decide))
      obtain ⟨v4, hv6⟩ := lookup_ok_of_mem .places 6 _ m6
      have m7 := checkOk_word_mem _ 7 .verbs (by decide) (hearly 7 (by decide))
      obtain ⟨v5, hv7⟩ := lookup_ok_of_mem .verbs 7 _ m7
      have herr := lookup_error_of_not_mem .names 8 _ hmem
      exact generate_inverse_err_of_decode_error s hlen (.notFound .names 8)
        (by simp only [decodeSlots, hv0, hv1, hv2, hv4, hv6, hv7, herr])
    · -- slot position 9
      have m0 := checkOk_word_mem _ 0 .names (by decide) (hearly 0 (by decide))
      obtain ⟨v0, hv0⟩ := lookup_ok_of_mem .names 0 _ m0
      have m1 := checkOk_word_mem _ 1 .names (by decide) (hearly 1 (by decide))
      obtain ⟨v1, hv1⟩ := lookup_ok_of_mem .names 1 _ m1
      have m2 := checkOk_word_mem _ 2 .names (by decide) (hearly 2 (by decide))
      obtain ⟨v2, hv2⟩ := lookup_ok_of_mem .names 2 _ m2
      have m4 := checkOk_word_mem _ 4 .personalNouns (by decide) (hearly 4 (by decide))
      obtain ⟨v3, hv4⟩ := lookup_ok_of_mem .personalNouns 4 _ m4
      have m6 := checkOk_word_mem _ 6 .places (by decide) (hearly 6 (by decide))
      obtain ⟨v4, hv6⟩ := lookup_ok_of_mem .places 6 _ m6
      have m7 := checkOk_word_mem _ 7 .verbs (by decide) (hearly 7 (by decide))
      obtain ⟨v5, hv7⟩ := lookup_ok_of_mem .verbs 7 _ m7
      have m8 := checkOk_word_mem _ 8 .names (by decide) (hearly 8 (by decide))
      obtain ⟨v6, hv8⟩ := lookup_ok_of_mem .names 8 _ m8
      have herr := lookup_error_of_not_mem .names 9 _ hmem
      exact generate_inverse_err_of_decode_error s hlen (.notFound .names 9)
        (by simp only [decodeSlots, hv0, hv1, hv2, hv4, hv6, hv7, hv8, herr])
    · -- slot position 10
      have m0 := checkOk_word_mem _ 0 .names (by decide) (hearly 0 (by decide))
      obtain ⟨v0, hv0⟩ := lookup_ok_of_mem .names 0 _ m0
      have m1 := checkOk_word_mem _ 1 .names (by decide) (hearly 1 (by decide))
      obtain ⟨v1, hv1⟩ := lookup_ok_of_mem .names 1 _ m1
      have m2 := checkOk_word_mem _ 2 .names (by decide) (hearly 2 (by decide))
      obtain ⟨v2, hv2⟩ := lookup_ok_of_mem .names 2 _ m2
      have m4 := checkOk_word_mem _ 4 .personalNouns (by decide) (hearly 4 (by decide))
      obtain ⟨v3, hv4⟩ := lookup_ok_of_mem .personalNouns 4 _ m4
      have m6 := checkOk_word_mem _ 6 .places (by decide) (hearly 6 (by decide))
      obtain ⟨v4, hv6⟩ := lookup_ok_of_mem .places 6 _ m6
      have m7 := checkOk_word_mem _ 7 .verbs (by decide) (hearly 7 (by decide))
      obtain ⟨v5, hv7⟩ := lookup_ok_of_mem .verbs 7 _ m7
      have m8 := checkOk_word_mem _ 8 .names (by decide) (hearly 8 (by decide))
      obtain ⟨v6, hv8⟩ := lookup_ok_of_mem .names 8 _ m8
      have m9 := checkOk_word_mem _ 9 .names (by decide) (hearly 9 (by decide))
      obtain ⟨v7, hv9⟩ := lookup_ok_of_mem .names 9 _ m9
      have herr := lookup_error_of_not_mem .names 10 _ hmem
      exact generate_inverse_err_of_decode_error s hlen (.notFound .names 10)
        (by simp only [decodeSlots, hv0, hv1, hv2, hv4, hv6, hv7, hv8, hv9, herr])
  · rw [if_neg hd] at hslot
    by_cases h4 : j = 4
    · rw [if_pos h4] at hslot
      injection hslot with hcat
      subst hcat
      subst h4
      have m0 := checkOk_word_mem _ 0 .names (by decide) (hearly 0 (by decide))
      obtain ⟨v0, hv0⟩ := lookup_ok_of_mem .names 0 _ m0
      have m1 := checkOk_word_mem _ 1 .names (by decide) (hearly 1 (by decide))
      obtain ⟨v1, hv1⟩ := lookup_ok_of_mem .names 1 _ m1
      have m2 := checkOk_word_mem _ 2 .names (by decide) (hearly 2 (by decide))
      obtain ⟨v2, hv2⟩ := lookup_ok_of_mem .names 2 _ m2
      have herr := lookup_error_of_not_mem .personalNouns 4 _ hmem
      exact generate_inverse_err_of_decode_error s hlen (.notFound .personalNouns 4)
        (by simp only [decodeSlots, hv0, hv1, hv2, herr])
    · rw [if_neg h4] at hslot
      by_cases h6 : j = 6
      · rw [if_pos h6] at hslot
        injection hslot with hcat
        subst hcat
        subst h6
        have m0 := checkOk_word_mem _ 0 .names (by decide) (hearly 0 (by decide))
        obtain ⟨v0, hv0⟩ := lookup_ok_of_mem .names 0 _ m0
        have m1 := checkOk_word_mem _ 1 .names (by decide) (hearly 1 (by decide))
        obtain ⟨v1, hv1⟩ := lookup_ok_of_mem .names 1 _ m1
        have m2 := checkOk_word_mem _ 2 .names (by decide) (hearly 2 (by decide))
        obtain ⟨v2, hv2⟩ := lookup_ok_of_mem .names 2 _ m2
        have m4 := checkOk_word_mem _ 4 .personalNouns (by decide) (hearly 4 (by decide))
        obtain ⟨v3, hv4⟩ := lookup_ok_of_mem .personalNouns 4 _ m4
        have herr := lookup_error_of_not_mem .places 6 _ hmem
        exact generate_inverse_err_of_decode_error s hlen (.notFound .places 6)
          (by simp only [decodeSlots, hv0, hv1, hv2, hv4, herr])
      · rw [if_neg h6] at hslot
        by_cases h7 : j = 7
        · rw [if_pos h7] at hslot
          injection hslot with hcat
          subst hcat
          subst h7
          have m0 := checkOk_word_mem _ 0 .names (by decide) (hearly 0 (by decide))
          obtain ⟨v0, hv0⟩ := lookup_ok_of_mem .names 0 _ m0
          have m1 := checkOk_word_mem _ 1 .names (by decide) (hearly 1 (by decide))
          obtain ⟨v1, hv1⟩ := lookup_ok_of_mem .names 1 _ m1
          have m2 := checkOk_word_mem _ 2 .names (by decide) (hearly 2 (by decide))
          obtain ⟨v2, hv2⟩ := lookup_ok_of_mem .names 2 _ m2
          have m4 := checkOk_word_mem _ 4 .personalNouns (by decide) (hearly 4 (by decide))
          obtain ⟨v3, hv4⟩ := lookup_ok_of_mem .personalNouns 4 _ m4
          have m6 := checkOk_word_mem _ 6 .places (by decide) (hearly 6 (by decide))
          obtain ⟨v4, hv6⟩ := lookup_ok_of_mem .places 6 _ m6
          have herr := lookup_error_of_not_mem .verbs 7 _ hmem
          exact generate_inverse_err_of_decode_error s hlen (.notFound .verbs 7)
            (by simp only [decodeSlots, hv0, hv1, hv2, hv4, hv6, herr])
        · rw [if_neg h7] at hslot
          by_cases h13 : j = 13
          · rw [if_pos h13] at hslot
            injection hslot with hcat
            subst hcat
            subst h13
            have m0 := checkOk_word_mem _ 0 .names (by decide) (hearly 0 (by decide))
            obtain ⟨v0, hv0⟩ := lookup_ok_of_mem .names 0 _ m0
            have m1 := checkOk_word_mem _ 1 .names (by decide) (hearly 1 (by decide))
            obtain ⟨v1, hv1⟩ := lookup_ok_of_mem .names 1 _ m1
            have m2 := checkOk_word_mem _ 2 .names (by decide) (hearly 2 (by decide))
            obtain ⟨v2, hv2⟩ := lookup_ok_of_mem .names 2 _ m2
            have m4 := checkOk_word_mem _ 4 .personalNouns (by decide) (hearly 4 (by decide))
            obtain ⟨v3, hv4⟩ := lookup_ok_of_mem .personalNouns 4 _ m4
            have m6 := checkOk_word_mem _ 6 .places (by decide) (hearly 6 (by decide))
            obtain ⟨v4, hv6⟩ := lookup_ok_of_mem .places 6 _ m6
            have m7 := checkOk_word_mem _ 7 .verbs (by decide) (hearly 7 (by decide))
            obtain ⟨v5, hv7⟩ := lookup_ok_of_mem .verbs 7 _ m7
            have m8 := checkOk_word_mem _ 8 .names (by decide) (hearly 8 (by decide))
            obtain ⟨v6, hv8⟩ := lookup_ok_of_mem .names 8 _ m8
            have m9 := checkOk_word_mem _ 9 .names (by decide) (hearly 9 (by decide))
            obtain ⟨v7, hv9⟩ := lookup_ok_of_mem .names 9 _ m9
            have m10 := checkOk_word_mem _ 10 .names (by decide) (hearly 10 (by decide))
            obtain ⟨v8, hv10⟩ := lookup_ok_of_mem .names 10 _ m10
            have hnum := checkOk_num_isSome _ (hearly 12 (by decide))
            obtain ⟨v9, hv12⟩ := parseNumTok_ok_of_isSome _ hnum
            have herr := lookup_error_of_not_mem .adjectives 13 _ hmem
            exact generate_inverse_err_of_decode_error s hlen (.notFound .adjectives 13)
              (by simp only [decodeSlots, hv0, hv1, hv2, hv4, hv6, hv7, hv8, hv9, hv10, hv12, herr])
          · rw [if_neg h13] at hslot
            by_cases h14 : j = 14
            · rw [if_pos h14] at hslot
              injection hslot with hcat
              subst hcat
              subst h14
              have m0 := checkOk_word_mem _ 0 .names (by decide) (hearly 0 (by decide))
              obtain ⟨v0, hv0⟩ := lookup_ok_of_mem .names 0 _ m0
              have m1 := checkOk_word_mem _ 1 .names (by decide) (hearly 1 (by decide))
              obtain ⟨v1, hv1⟩ := lookup_ok_of_mem .names 1 _ m1
              have m2 := checkOk_word_mem _ 2 .names (by decide) (hearly 2 (by decide))
              obtain ⟨v2, hv2⟩ := lookup_ok_of_mem .names 2 _ m2
              have m4 := checkOk_word_mem _ 4 .personalNouns (by decide) (hearly 4 (by decide))
              obtain ⟨v3, hv4⟩ := lookup_ok_of_mem .personalNouns 4 _ m4
              have m6 := checkOk_word_mem _ 6 .places (by decide) (hearly 6 (by decide))
              obtain ⟨v4, hv6⟩ := lookup_ok_of_mem .places 6 _ m6
              have m7 := checkOk_word_mem _ 7 .verbs (by decide) (hearly 7 (by decide))
              obtain ⟨v5, hv7⟩ := lookup_ok_of_mem .verbs 7 _ m7
              have m8 := checkOk_word_mem _ 8 .names (by decide) (hearly 8 (by decide))
              obtain ⟨v6, hv8⟩ := lookup_ok_of_mem .names 8 _ m8
              have m9 := checkOk_word_mem _ 9 .names (by decide) (hearly 9 (by decide))
              obtain ⟨v7, hv9⟩ := lookup_ok_of_mem .names 9 _ m9
              have m10 := checkOk_word_mem _ 10 .names (by decide) (hearly 10 (by decide))
              obtain ⟨v8, hv10⟩ := lookup_ok_of_mem .names 10 _ m10
              have hnum := checkOk_num_isSome _ (hearly 12 (by decide))
              obtain ⟨v9, hv12⟩ := parseNumTok_ok_of_isSome _ hnum
              have m13 := checkOk_word_mem _ 13 .adjectives (by decide) (hearly 13 (by decide))
              obtain ⟨v10, hv13⟩ := lookup_ok_of_mem .adjectives 13 _ m13
              have herr := lookup_error_of_not_mem .animals 14 _ hmem
              exact generate_inverse_err_of_decode_error s hlen (.notFound .animals 14)
                (by simp only [decodeSlots, hv0, hv1, hv2, hv4, hv6, hv7, hv8, hv9, hv10, hv12, hv13, herr])
            · rw [if_neg h14] at hslot
              exact Option.noConfusion hslot

/-- Witness for C4: a sentence whose animal token resolves nowhere, with all
earlier checks passing, yields precisely the ANIMALS-slot error. -/
theorem unresolvable_word_rejected_witness :
    (∃ e, generate_inverse (joinSp [['a'], ['a'], ['a'], theTok, ['a'], ofTok,
        ['a'], ['a'], ['a'], ['a'], ['a'], andTok, ['0'], ['a'], ['z']]) = .err e) ∧
      ((∀ i ∈ earlierSlots 14, checkOk (splitSp (joinSp [['a'], ['a'], ['a'],
          theTok, ['a'], ofTok, ['a'], ['a'], ['a'], ['a'], ['a'], andTok,
          ['0'], ['a'], ['z']])) i = true) →
        generate_inverse (joinSp [['a'], ['a'], ['a'], theTok, ['a'], ofTok,
          ['a'], ['a'], ['a'], ['a'], ['a'], andTok, ['0'], ['a'], ['z']]) =
          .err (.notFound .animals 14)) :=
  unresolvable_word_rejected _ 14 .animals (by decide) (by decide) (by decide)

/-- A nonempty all-digit numeral whose value does not fit in `u16` fails
Rust's `parse::<u16>()`. -/
theorem parseU16_eq_none_of_big (cs : List Char) (hne : cs ≠ [])
    (hdig : ∀ c ∈ cs, c.isDigit) (hbig : 65536 ≤ digitsVal cs) :
    parseU16 cs = none := by
  cases cs with
  | nil => exact absurd rfl hne
  | cons c rest =>
    have hc : c.isDigit := hdig c (by simp)
    have hplus : ¬ (c = '+') := by
      intro h
      subst h
      exact absurd hc (by decide)
    have hall : (c :: rest).all (fun x => x.isDigit) = true :=
      List.all_eq_true.mpr (fun x hx => hdig x hx)
    show (if (if c = '+' then rest else c :: rest).isEmpty then none
        else if (if c = '+' then rest else c :: rest).all (fun x => x.isDigit) then
          if digitsVal (if c = '+' then rest else c :: rest) < 65536 then
            some (digitsVal (if c = '+' then rest else c :: rest))
          else none
        else none) = none
    rw [if_neg hplus]
    simp only [List.isEmpty_cons, Bool.false_eq_true, if_false, hall, if_true]
    rw [if_neg (by omega)]

/-- Claim C2 counterexample: a well-formed NORMAL sentence whose numeric
token is `32` — which parses to a value at least `2^5`, outside the 5-bit
slot — is NOT rejected: the decoder accepts it, silently truncating the
value to its low 5 bits (here to 0). -/
theorem numeral_width_cex :
    parseU16 ((splitSp (joinSp [['a'], ['a'], ['a'], theTok, ['a'], ofTok,
        ['a'], ['a'], ['a'], ['a'], ['a'], andTok, ['3', '2'], ['a'],
        ['a']])).getD 12 []) = some 32 ∧
      2 ^ 5 ≤ 32 ∧
      generate_inverse (joinSp [['a'], ['a'], ['a'], theTok, ['a'], ofTok,
        ['a'], ['a'], ['a'], ['a'], ['a'], andTok, ['3', '2'], ['a'],
        ['a']]) = .ok (List.replicate 16 0) :=
  ⟨by decide, by decide, by decide⟩

/-- Claim C2 (amended): the numeric slot is parsed as a `u16`, not checked
against the 5-bit slot width; `generate_inverse` fails on the numeral only
when it does not parse as a `u16` — in particular whenever it is a
non-negative base-10 integer `v` with `v ≥ 2^16`.  Values
`2^5 ≤ v < 2^16` are accepted and silently truncated to the low 5 bits. -/
theorem numeral_not_u16_rejected (s : List Char)
    (hlen : 15 ≤ (splitSp s).length)
    (hne : (splitSp s).getD 12 [] ≠ [])
    (hdig : ∀ c ∈ (splitSp s).getD 12 [], c.isDigit)
    (hbig : 65536 ≤ digitsVal ((splitSp s).getD 12 [])) :
    ∃ e, generate_inverse s = .err e := by
  have hparse : parseU16 ((splitSp s).getD 12 []) = none :=
    parseU16_eq_none_of_big _ hne hdig hbig
  cases hds : decodeSlots ((splitSp s).getD 0 []) ((splitSp s).getD 1 [])
      ((splitSp s).getD 2 []) ((splitSp s).getD 4 [])
      ((splitSp s).getD 6 []) ((splitSp s).getD 7 [])
      ((splitSp s).getD 8 []) ((splitSp s).getD 9 [])
      ((splitSp s).getD 10 []) ((splitSp s).getD 12 [])
      ((splitSp s).getD 13 []) ((splitSp s).getD 14 []) with
  | error e => exact ⟨e, generate_inverse_err_of_decode_error s hlen e hds⟩
  | ok vals =>
    exfalso
    have hsome :=
      (decodeSlots_ok_inv _ _ _ _ _ _ _ _ _ _ _ _ _ hds).2.2.2.2.2.2.2.2.2.2.1
    rw [hparse] at hsome
    simp at hsome

/-- Witness for the amended C2: numeral `99999` (at least `2^16`) is
rejected. -/
theorem numeral_not_u16_rejected_witness :
    ∃ e, generate_inverse (joinSp [['a'], ['a'], ['a'], theTok, ['a'], ofTok,
      ['a'], ['a'], ['a'], ['a'], ['a'], andTok,
      ['9', '9', '9', '9', '9'], ['a'], ['a']]) = .err e :=
  numeral_not_u16_rejected _ (by decide) (by decide) (by decide) (by decide)

theorem SHORT_le16 : ∀ p ∈ SHORT, p ≤ 16 := by decide

/-- Bounds for the 5 SHORT partition values, instantiated per slot. -/
theorem partition_SHORT_bounds (bytes : List Nat) :
    (partition SHORT bytes).getD 0 0 < 64 ∧
      (partition SHORT bytes).getD 1 0 < 64 ∧
      (partition SHORT bytes).getD 2 0 < 128 ∧
      (partition SHORT bytes).getD 3 0 < 256 ∧
      (partition SHORT bytes).getD 4 0 < 32 := by
  have h : ∀ i, i < 5 →
      (partition SHORT bytes).getD i 0 < 2 ^ (SHORT.getD i 0) := by
    intro i hi
    exact partition_getD_lt SHORT bytes SHORT_le16 i
      (by rw [show SHORT.length = 5 from rfl]; omega)
  exact ⟨lt_of_lt_of_le (h 0 (by omega)) (by decide),
    lt_of_lt_of_le (h 1 (by omega)) (by decide),
    lt_of_lt_of_le (h 2 (by omega)) (by decide),
    lt_of_lt_of_le (h 3 (by omega)) (by decide),
    lt_of_lt_of_le (h 4 (by omega)) (by decide)⟩

/-- The SHORT sentence splits back into exactly its 5 template tokens. -/
theorem splitSp_shortSentence (bytes : List Nat) :
    splitSp (shortSentence bytes) = shortTokens bytes := by
  obtain ⟨h0, h1, h2, h3, h4⟩ := partition_SHORT_bounds bytes
  apply splitSp_joinSp
  · simp [shortTokens]
  · intro t ht
    have hword : ∀ (tbl : List (List Char)) (s N v : Nat), tbl = wordsFrom s N →
        v < N → ' ' ∉ wordAt tbl v := by
      intro tbl s N v htab hv
      rw [wordAt, htab, wordsFrom_getD N s v hv]
      exact no_space_replicate _
    simp only [shortTokens, List.mem_cons, List.not_mem_nil, or_false] at ht
    rcases ht with rfl | rfl | rfl | rfl | rfl
    · exact hword NAMES 0 16384 _ rfl (by omega)
    · exact hword VERBS 0 1024 _ rfl (by omega)
    · exact (numTok_facts _ (by omega)).1
    · exact hword ADJECTIVES 0 256 _ rfl (by omega)
    · exact hword ANIMALS 0 128 _ rfl (by omega)

/-- `partitionGo` only ever reads the first `sum widths` bits. -/
theorem partitionGo_take_sum (ps : List Nat) :
    ∀ bits : List Nat, partitionGo ps (bits.take ps.sum) = partitionGo ps bits := by
  induction ps with
  | nil => intro bits; rfl
  | cons p ps ih =>
    intro bits
    simp only [partitionGo, List.sum_cons]
    have ht : (bits.take (p + ps.sum)).take p = bits.take p := by
      rw [List.take_take, min_eq_left (by omega)]
    have hd : (bits.take (p + ps.sum)).drop p = (bits.drop p).take ps.sum := by
      rw [List.drop_take]
      congr 1
      omega
    rw [ht, hd, ih (bits.drop p)]

/-- Claim C5: `short_from` depends only on the leading 32 bits of the token:
two 16-byte tokens whose `to_bits` sequences agree on the first 32 bits
produce the same SHORT sentence (the remaining 96 bits are discarded). -/
theorem short_ignores_trailing_bits (b1 b2 : List Nat)
    (h1 : b1.length = 16) (h2 : b2.length = 16)
    (hagree : (to_bits b1).take 32 = (to_bits b2).take 32) :
    short_from b1 = short_from b2 := by
  have hp : partition SHORT b1 = partition SHORT b2 := by
    rw [partition, partition, ← partitionGo_take_sum SHORT (to_bits b1),
      ← partitionGo_take_sum SHORT (to_bits b2)]
    rw [show SHORT.sum = 32 from rfl, hagree]
  simp only [short_from, shortSentence, shortTokens, hp]

/-- Witness for C5: the all-zero token and a token with the same first 4
bytes but all-ones tail shorten identically. -/
theorem short_ignores_trailing_bits_witness :
    short_from (List.replicate 16 0) =
      short_from (List.replicate 4 0 ++ List.replicate 12 255) :=
  short_ignores_trailing_bits _ _ (by decide) (by decide) (by decide)

/-- Claim C6: the NORMAL sentence splits into exactly these 15 single-space
separated tokens: the category words of the 12 segment values in template
order, the connectives the/of/and at positions 3, 5 and 11, and at position
12 the decimal numeral of segment value 9 — which is nonempty, all digits
(so unsigned) and has no leading zero unless the value is 0. -/
theorem generate_template_shape (bytes : List Nat) (hlen : bytes.length = 16)
    (hb : ∀ b ∈ bytes, b < 256) :
    splitSp (generate_from bytes) =
      [wordAt NAMES ((partition NORMAL bytes).getD 0 0),
       wordAt NAMES ((partition NORMAL bytes).getD 1 0),
       wordAt NAMES ((partition NORMAL bytes).getD 2 0), theTok,
       wordAt PERSONAL_NOUNS ((partition NORMAL bytes).getD 3 0), ofTok,
       wordAt PLACES ((partition NORMAL bytes).getD 4 0),
       wordAt VERBS ((partition NORMAL bytes).getD 5 0),
       wordAt NAMES ((partition NORMAL bytes).getD 6 0),
       wordAt NAMES ((partition NORMAL bytes).getD 7 0),
       wordAt NAMES ((partition NORMAL bytes).getD 8 0), andTok,
       Nat.toDigits 10 ((partition NORMAL bytes).getD 9 0),
       wordAt ADJECTIVES ((partition NORMAL bytes).getD 10 0),
       wordAt ANIMALS ((partition NORMAL bytes).getD 11 0)] ∧
      Nat.toDigits 10 ((partition NORMAL bytes).getD 9 0) ≠ [] ∧
      (∀ c ∈ Nat.toDigits 10 ((partition NORMAL bytes).getD 9 0), c.isDigit) ∧
      ((Nat.toDigits 10 ((partition NORMAL bytes).getD 9 0)).headI = '0' →
        (partition NORMAL bytes).getD 9 0 = 0) := by
  obtain ⟨h0, h1, h2, h3, h4, h5, h6, h7, h8, h9, h10, h11⟩ :=
    partition_NORMAL_bounds bytes
  refine ⟨splitSp_generateSentence bytes, ?_, ?_, ?_⟩
  · exact (numTok_facts _ (by omega)).2.1
  · exact (numTok_facts _ (by omega)).2.2.1
  · exact (numTok_facts _ (by omega)).2.2.2.2

/-- Witness for C6 at the all-zero token. -/
theorem generate_template_shape_witness :
    splitSp (generate_from (List.replicate 16 0)) =
      [wordAt NAMES ((partition NORMAL (List.replicate 16 0)).getD 0 0),
       wordAt NAMES ((partition NORMAL (List.replicate 16 0)).getD 1 0),
       wordAt NAMES ((partition NORMAL (List.replicate 16 0)).getD 2 0), theTok,
       wordAt PERSONAL_NOUNS ((partition NORMAL (List.replicate 16 0)).getD 3 0), ofTok,
       wordAt PLACES ((partition NORMAL (List.replicate 16 0)).getD 4 0),
       wordAt VERBS ((partition NORMAL (List.replicate 16 0)).getD 5 0),
       wordAt NAMES ((partition NORMAL (List.replicate 16 0)).getD 6 0),
       wordAt NAMES ((partition NORMAL (List.replicate 16 0)).getD 7 0),
       wordAt NAMES ((partition NORMAL (List.replicate 16 0)).getD 8 0), andTok,
       Nat.toDigits 10 ((partition NORMAL (List.replicate 16 0)).getD 9 0),
       wordAt ADJECTIVES ((partition NORMAL (List.replicate 16 0)).getD 10 0),
       wordAt ANIMALS ((partition NORMAL (List.replicate 16 0)).getD 11 0)] ∧
      Nat.toDigits 10 ((partition NORMAL (List.replicate 16 0)).getD 9 0) ≠ [] ∧
      (∀ c ∈ Nat.toDigits 10 ((partition NORMAL (List.replicate 16 0)).getD 9 0),
        c.isDigit) ∧
      ((Nat.toDigits 10 ((partition NORMAL (List.replicate 16 0)).getD 9 0)).headI = '0' →
        (partition NORMAL (List.replicate 16 0)).getD 9 0 = 0) :=
  generate_template_shape _ (by simp) (by simp)

/-- Claim C10: the SHORT sentence splits into exactly these 5 single-space
separated tokens — a name, a verb, the decimal numeral of the 7-bit segment,
an adjective and an animal, resolved from the SHORT widths [6, 6, 7, 8, 5]
in order — with no connective word between the verb and the numeral. -/
theorem short_template_shape (bytes : List Nat) (hlen : bytes.length = 16)
    (hb : ∀ b ∈ bytes, b < 256) :
    splitSp (short_from bytes) =
      [wordAt NAMES ((partition SHORT bytes).getD 0 0),
       wordAt VERBS ((partition SHORT bytes).getD 1 0),
       Nat.toDigits 10 ((partition SHORT bytes).getD 2 0),
       wordAt ADJECTIVES ((partition SHORT bytes).getD 3 0),
       wordAt ANIMALS ((partition SHORT bytes).getD 4 0)] ∧
      Nat.toDigits 10 ((partition SHORT bytes).getD 2 0) ≠ [] ∧
      (∀ c ∈ Nat.toDigits 10 ((partition SHORT bytes).getD 2 0), c.isDigit) := by
  obtain ⟨h0, h1, h2, h3, h4⟩ := partition_SHORT_bounds bytes
  refine ⟨splitSp_shortSentence bytes, ?_, ?_⟩
  · exact (numTok_facts _ (by omega)).2.1
  · exact (numTok_facts _ (by omega)).2.2.1

/-- Witness for C10 at the all-zero token. -/
theorem short_template_shape_witness :
    splitSp (short_from (List.replicate 16 0)) =
      [wordAt NAMES ((partition SHORT (List.replicate 16 0)).getD 0 0),
       wordAt VERBS ((partition SHORT (List.replicate 16 0)).getD 1 0),
       Nat.toDigits 10 ((partition SHORT (List.replicate 16 0)).getD 2 0),
       wordAt ADJECTIVES ((partition SHORT (List.replicate 16 0)).getD 3 0),
       wordAt ANIMALS ((partition SHORT (List.replicate 16 0)).getD 4 0)] ∧
      Nat.toDigits 10 ((partition SHORT (List.replicate 16 0)).getD 2 0) ≠ [] ∧
      (∀ c ∈ Nat.toDigits 10 ((partition SHORT (List.replicate 16 0)).getD 2 0),
        c.isDigit) :=
  short_template_shape _ (by simp) (by simp)

end UuidReadable
